import Mathlib

/-!
# forward-x-keys: the key-forwarding state machine

A shallow embedding of `forward-x-keys.c` (the startup code and the event loop
of `main`, `grabxkey`, the nested `predicate` of the auto-repeat filter and
`reverse_array`) together with the properties of the forwarding protocol that
are proved about it.

Conventions of the embedding.

* X identifiers (`Window`), key-codes and timestamps are natural numbers.
* `XEvent` is a tagged union in C; it is a sum type here: a key event (`xkey`)
  or an event of any other type.
* The local variables of `main` that the loop mutates form the record `Locals`.
  `trigger_keycode`, `fw`, `revert_to` and `trigger_event` are declared without
  an initialiser in C: they are `Option`s, `none` meaning "not yet assigned",
  and reading one that is `none` makes the transition undefined (`none`).
* A C array together with its element count (`stacking_order`,
  `stacking_order_n`) is a list; the `NULL` pointer is `none`.
* Every Xlib request issued by the loop is recorded, in program order, as a
  `Call`; the answers of the X server to the queries are inputs (`Replies`).
-/

namespace ForwardXKeys

/-- X resource identifier of a window. -/
abbrev Window := Nat

/-- Discriminator of the two key event types the loop lets through. -/
inductive EventType
  | KeyPress
  | KeyRelease
deriving DecidableEq, Repr

/-- The fields of `XKeyEvent` the program reads or writes, plus the modifier
`state` field as a representative of the fields it only copies. -/
structure XKeyEvent where
  type : EventType
  window : Window
  subwindow : Window
  time : Nat
  state : Nat
  keycode : Nat
deriving DecidableEq, Repr

/-- The `XEvent` union: a key event, or an event of another type (its type code). -/
inductive XEvent
  | xkey (e : XKeyEvent)
  | other (type : Nat)
deriving DecidableEq, Repr

/-- Transcription of `enum state`. -/
inductive State
  | forward_some_keys
  | as_modifier
  | magic_key_held
deriving DecidableEq, Repr

/-- Transcription of `enum discard`. -/
inductive Discard
  | discard_never
  | discard_modifier
  | discard_always
deriving DecidableEq, Repr

/-- The constant `RevertToNone` of `X.h`. -/
def RevertToNone : Int := 0

/-- Locals of `main` that are fixed before the event loop starts: the root
window `rw`, the target window `w`, the target subwindow `sw` and the discard
policy. -/
structure Config where
  rw : Window
  w : Window
  sw : Window
  discard : Discard
deriving DecidableEq, Repr

/-- Locals of `main` that the event loop mutates. -/
structure Locals where
  state : State
  trigger_keycode : Option Nat
  fw : Option Window
  revert_to : Option Int
  stacking_order : Option (List Window)
  trigger_event : Option XKeyEvent
  modifiers : Nat
deriving DecidableEq, Repr

/-- The values of the locals when the event loop is entered: `state` is
`forward_some_keys`, `stacking_order` is `NULL`, `modifiers` holds the mask read
at startup, the other variables are unassigned. -/
def Locals.initial (modifiers : Nat) : Locals :=
  { state := .forward_some_keys, trigger_keycode := none, fw := none, revert_to := none,
    stacking_order := none, trigger_event := none, modifiers := modifiers }

/-- Xlib requests issued by the event loop. Arguments that are the same constant
at every call site (`CurrentTime`, `GrabModeAsync`, the event mask, the
`propagate` flag) are left out. -/
inductive Call
  | XSync
  | XQueryPointer (w : Window)
  | XCheckIfEvent
  | XGrabKeyboard (w : Window)
  | XUngrabKeyboard
  | XQueryTree (w : Window)
  | XRaiseWindow (w : Window)
  | XGetInputFocus
  | XSetInputFocus (w : Window) (revert_to : Int)
  | XRestackWindows (windows : List Window)
  | XSendEvent (w : Window) (ev : XKeyEvent)
deriving DecidableEq, Repr

/-- Answers of the X server to the two queries of the `forward_some_keys` case:
`children` is the array `XQueryTree` hands back (bottom-most window first;
`none` when it hands back `NULL`), `focus` and `revert_to` are the results of
`XGetInputFocus`. -/
structure Replies where
  children : Option (List Window)
  focus : Window
  revert_to : Int
deriving DecidableEq, Repr

/-- Body of the `for` loop of `reverse_array` for one value of `i`: swap
`array[n-i-1]` and `array[i]`. An index outside the array is undefined. -/
def reverse_array_body (n : Nat) (array : List Window) (i : Nat) : Option (List Window) :=
  match array[n - i - 1]?, array[i]? with
  | some tmp, some x => some ((array.set (n - i - 1) x).set i tmp)
  | _, _ => none

/-- Transcription of `reverse_array`: `for (i=0; i<n/2; i++)` runs the body for
`i = 0, 1, ..., n/2 - 1`. -/
def reverse_array (array : List Window) (n : Nat) : Option (List Window) :=
  (List.range (n / 2)).foldlM (reverse_array_body n) array

/-- Entry `j` of the array after `k` iterations of the loop of `reverse_array`
on `l`: the first `k` and the last `k` entries are exchanged. -/
def swapped (l : List Window) (k : Nat) (j : Nat) : Option Window :=
  if j < k ∨ l.length - k ≤ j then l[l.length - 1 - j]? else l[j]?

/-- The `switch (state)` statement of the event loop for a key event `ev`.
The result is the new values of the locals, the Xlib requests issued, in
order, and the final value of `do_send` (which starts as `1`). -/
def switch_state (c : Config) (s : Locals) (r : Replies) (ev : XKeyEvent) :
    Option (Locals × List Call × Bool) :=
  match s.state with
  | .forward_some_keys =>
    match ev.type with
    | .KeyPress =>
      let queried : Option (Option (List Window)) :=
        match r.children with
        | none => some none
        | some a => (reverse_array a a.length).map some
      match queried with
      | none => none
      | some stacking_order =>
        let s1 : Locals :=
          { s with
            trigger_keycode := some ev.keycode
            state := .magic_key_held
            stacking_order := stacking_order
            fw := some r.focus
            revert_to := some r.revert_to }
        let calls : List Call :=
          [.XGrabKeyboard c.rw, .XQueryTree c.rw, .XRaiseWindow c.w, .XGetInputFocus,
            .XSetInputFocus c.sw RevertToNone]
        match c.discard with
        | .discard_always => some (s1, calls, false)
        | .discard_modifier => some ({ s1 with trigger_event := some ev }, calls, false)
        | .discard_never => some (s1, calls, true)
    | .KeyRelease => some (s, [], false)
  | .magic_key_held =>
    match s.trigger_keycode with
    | none => none
    | some trigger_keycode =>
      match ev.type with
      | .KeyPress =>
        if ev.keycode ≠ trigger_keycode then
          some ({ s with state := .as_modifier }, [], true)
        else
          some (s, [], false)
      | .KeyRelease =>
        if ev.keycode = trigger_keycode then
          match c.discard with
          | .discard_always =>
            some ({ s with state := .forward_some_keys }, [.XUngrabKeyboard], false)
          | .discard_modifier =>
            match s.trigger_event with
            | none => none
            | some trigger_event =>
              some ({ s with state := .forward_some_keys },
                [.XSendEvent c.w trigger_event, .XUngrabKeyboard], true)
          | .discard_never =>
            some ({ s with state := .forward_some_keys }, [.XUngrabKeyboard], true)
        else
          some ({ s with state := .as_modifier }, [], false)
  | .as_modifier =>
    match ev.type with
    | .KeyPress => some (s, [], true)
    | .KeyRelease =>
      match s.trigger_keycode with
      | none => none
      | some trigger_keycode =>
        if ev.keycode = trigger_keycode then
          match s.fw, s.revert_to with
          | some fw, some revert_to =>
            let restack : List Call :=
              match s.stacking_order with
              | some a => [.XRestackWindows a]
              | none => []
            some ({ s with state := .forward_some_keys },
              [.XSetInputFocus fw revert_to] ++ restack ++ [.XUngrabKeyboard], true)
          | _, _ => none
        else
          some (s, [], true)

/-- The event that the `if (do_send)` block sends: `ev` with `xkey.window`
and `xkey.subwindow` overwritten by `w` and `sw`. -/
def forwarded (c : Config) (ev : XKeyEvent) : XKeyEvent :=
  { ev with window := c.w, subwindow := c.sw }

/-- The `if (do_send)` block that ends the loop body. -/
def send_block (c : Config) (ev : XKeyEvent) (do_send : Bool) : List Call :=
  if do_send then [.XSendEvent c.w (forwarded c ev)] else []

/-- The state machine: the part of the loop body that a key event reaches
once it has passed the auto-repeat filter (the `switch` followed by the
`if (do_send)` block). -/
def step (c : Config) (s : Locals) (r : Replies) (ev : XKeyEvent) :
    Option (Locals × List Call) :=
  match switch_state c s r ev with
  | none => none
  | some (s1, calls, do_send) => some (s1, calls ++ send_block c ev do_send)

/-- The nested function `predicate` of `main`; `ev` is the enclosing loop's
event (a `KeyRelease`), `event` the queued event under test. -/
def predicate (ev : XKeyEvent) (event : XEvent) : Bool :=
  match event with
  | .xkey k => k.type = .KeyPress && k.time = ev.time && k.keycode = ev.keycode
  | .other _ => false

/-- Xlib's `XCheckIfEvent` on the event queue `queue`: the first queued event
that satisfies the predicate is removed and returned; with no such event the
queue is left alone and the call returns `False` (`none`). -/
def XCheckIfEvent (p : XEvent → Bool) : List XEvent → Option (XEvent × List XEvent)
  | [] => none
  | e :: queue =>
    if p e then some (e, queue)
    else
      match XCheckIfEvent p queue with
      | some (found, rest) => some (found, e :: rest)
      | none => none

/-- What one iteration of the event loop receives from outside: the event
returned by `XNextEvent`, the contents of the event queue at the moment
`XCheckIfEvent` looks at it, the modifier mask `XQueryPointer` would report,
and the replies to the queries of the state machine. -/
structure Input where
  ev : XEvent
  queue : List XEvent
  mask : Nat
  replies : Replies
deriving DecidableEq, Repr

/-- Requests of the auto-repeat filter, issued for every `KeyRelease`. -/
def filter_calls (c : Config) : List Call :=
  [.XSync, .XQueryPointer c.rw, .XSync, .XCheckIfEvent]

/-- One iteration of `while (XNextEvent(d, &ev) == 0)`. The result is the new
locals, the event queue as `XCheckIfEvent` leaves it, and the requests issued. -/
def loop_body (c : Config) (s : Locals) (inp : Input) :
    Option (Locals × List XEvent × List Call) :=
  match inp.ev with
  | .other _ => some (s, inp.queue, [])
  | .xkey ev =>
    match ev.type with
    | .KeyRelease =>
      let s1 : Locals := { s with modifiers := inp.mask }
      match XCheckIfEvent (predicate ev) inp.queue with
      | some (_, queue) => some (s1, queue, filter_calls c)
      | none =>
        match step c s1 inp.replies ev with
        | none => none
        | some (s2, calls) => some (s2, inp.queue, filter_calls c ++ calls)
    | .KeyPress =>
      match step c s inp.replies ev with
      | none => none
      | some (s2, calls) => some (s2, inp.queue, calls)

/-- The state machine run over a sequence of key events, each with the
replies the X server gives while it is processed; the requests of all steps
are concatenated. -/
def run (c : Config) : Locals → List (XKeyEvent × Replies) → Option (Locals × List Call)
  | s, [] => some (s, [])
  | s, (ev, r) :: rest =>
    match step c s r ev with
    | none => none
    | some (s1, calls) =>
      match run c s1 rest with
      | none => none
      | some (s2, calls2) => some (s2, calls ++ calls2)

/-- The event loop run over a sequence of iterations. -/
def main_loop (c : Config) : Locals → List Input → Option (Locals × List Call)
  | s, [] => some (s, [])
  | s, inp :: rest =>
    match loop_body c s inp with
    | none => none
    | some (s1, _, calls) =>
      match main_loop c s1 rest with
      | none => none
      | some (s2, calls2) => some (s2, calls ++ calls2)

/-- The synthetic key events among a list of requests, in order, each with
the window it is sent to. -/
def sent : List Call → List (Window × XKeyEvent)
  | [] => []
  | .XSendEvent w ev :: rest => (w, ev) :: sent rest
  | _ :: rest => sent rest

/-- The variables that are saved on the trigger press and read back later:
`trigger_keycode`, `fw`, `revert_to`, `stacking_order` and `trigger_event`. -/
def Locals.saved (s : Locals) :
    Option Nat × Option Window × Option Int × Option (List Window) × Option XKeyEvent :=
  (s.trigger_keycode, s.fw, s.revert_to, s.stacking_order, s.trigger_event)

/-- Whether the keyboard is captured after a list of requests, given whether
it was captured before: `XGrabKeyboard` sets the flag, `XUngrabKeyboard`
clears it, no other request touches it. -/
def captured_after : Bool → List Call → Bool
  | b, [] => b
  | _, .XGrabKeyboard _ :: rest => captured_after true rest
  | _, .XUngrabKeyboard :: rest => captured_after false rest
  | b, _ :: rest => captured_after b rest

/-- The locals together with the capture flag that the event loop can reach:
it starts with the initial locals and the keyboard not captured, and every
iteration of the loop, on any input, leads from a reachable pair to a
reachable pair. -/
inductive Reachable (c : Config) : Locals → Bool → Prop
  | initial (modifiers : Nat) : Reachable c (Locals.initial modifiers) false
  | iteration {s s1 : Locals} {captured : Bool} {queue : List XEvent} {calls : List Call}
      (inp : Input) (h : Reachable c s captured)
      (hbody : loop_body c s inp = some (s1, queue, calls)) :
      Reachable c s1 (captured_after captured calls)

/-- The saved variables are assigned whenever they can be read: outside
`forward_some_keys` the trigger key-code and the saved focus are assigned, and
in `magic_key_held` under `discard_modifier` the retained event is assigned
and is a press of the trigger key-code. -/
def Valid (c : Config) (s : Locals) : Prop :=
  (s.state ≠ .forward_some_keys →
    (∃ tk, s.trigger_keycode = some tk) ∧ (∃ fw, s.fw = some fw) ∧
      (∃ revert_to, s.revert_to = some revert_to)) ∧
  (c.discard = .discard_modifier → s.state = .magic_key_held →
    ∃ te, s.trigger_event = some te ∧ te.type = .KeyPress ∧
      s.trigger_keycode = some te.keycode)

/-- Two values of the locals that the loop cannot tell apart: the same
`state`, and, outside `forward_some_keys`, the same saved variables (the
retained event only under `discard_modifier`, the one policy that reads it).
In `forward_some_keys` the saved variables are leftovers and may differ. -/
def Agree (c : Config) (s t : Locals) : Prop :=
  s.state = t.state ∧
  (s.state ≠ .forward_some_keys →
    s.trigger_keycode = t.trigger_keycode ∧ s.fw = t.fw ∧ s.revert_to = t.revert_to ∧
      s.stacking_order = t.stacking_order ∧
      (c.discard = .discard_modifier → s.trigger_event = t.trigger_event))

/-! ### The X server the requests act on

The X server is outside the repository. For the statements that speak of the
input focus and the stacking order themselves, and not of the requests issued,
the relevant part of its state is modelled here; the effect of each request
follows its Xlib manual entry. -/

/-- Input focus (window and revert mode), the children of the root window in
stacking order, bottom-most first (the order `XQueryTree` reports), and
whether the keyboard is actively grabbed. -/
structure XServer where
  focus : Window
  revert_to : Int
  stacking : List Window
  keyboard_grabbed : Bool
deriving DecidableEq, Repr

/-- Effect of `XRaiseWindow`: the window moves to the top of the stack. -/
def raise_window (w : Window) (stacking : List Window) : List Window :=
  if w ∈ stacking then stacking.erase w ++ [w] else stacking

/-- Put `w` immediately below `sibling` in a stack that does not hold `w`. -/
def insert_below (w sibling : Window) : List Window → List Window
  | [] => []
  | x :: rest => if x = sibling then w :: x :: rest else x :: insert_below w sibling rest

/-- Restack one window immediately below a sibling. -/
def stack_below (w sibling : Window) (stacking : List Window) : List Window :=
  if w ≠ sibling ∧ w ∈ stacking ∧ sibling ∈ stacking then
    insert_below w sibling (stacking.erase w)
  else stacking

/-- Effect of `XRestackWindows` on an array given top-most first: the first
window is left where it is and every later one is stacked immediately below
its predecessor in the array. -/
def restack_windows : List Window → List Window → List Window
  | a :: b :: rest, stacking => restack_windows (b :: rest) (stack_below b a stacking)
  | _, stacking => stacking

/-- Effect of one request on the server state; queries and `XSendEvent` leave
focus, stacking and grab as they are. -/
def XServer.exec (x : XServer) : Call → XServer
  | .XGrabKeyboard _ => { x with keyboard_grabbed := true }
  | .XUngrabKeyboard => { x with keyboard_grabbed := false }
  | .XRaiseWindow w => { x with stacking := raise_window w x.stacking }
  | .XSetInputFocus w revert_to => { x with focus := w, revert_to := revert_to }
  | .XRestackWindows windows => { x with stacking := restack_windows windows x.stacking }
  | _ => x

/-- The answers the server gives to `XQueryTree` on the root window and to
`XGetInputFocus`; `XQueryTree` hands back `NULL` when there are no children. -/
def XServer.replies (x : XServer) : Replies :=
  { children := if x.stacking = [] then none else some x.stacking
    focus := x.focus
    revert_to := x.revert_to }

/-- The state machine run against the server model: the queries are answered
from the server state (the requests issued before them in the same step,
`XGrabKeyboard` and `XRaiseWindow`, change neither the answer of `XQueryTree`,
which precedes the raise, nor the focus), and the requests are then applied
in order. -/
def step_on (c : Config) (s : Locals) (x : XServer) (ev : XKeyEvent) :
    Option (Locals × XServer × List Call) :=
  match step c s x.replies ev with
  | none => none
  | some (s1, calls) => some (s1, calls.foldl XServer.exec x, calls)

/-! ### Startup: argument parsing and key grabs -/

/-- The constant `NoSymbol` of `X.h`. -/
def NoSymbol : Nat := 0

/-- What the startup code of `main` obtains from outside the program: whether
`XtOpenDisplay` returns a display, the root window of its default screen, the
modifier mask `XQueryPointer` reports, and the functions `strtoul` (base 0),
`XStringToKeysym` and `XtKeysymToKeycodeList`. -/
structure Environment where
  display : Bool
  root : Window
  pointer_mask : Nat
  strtoul : String → Nat
  XStringToKeysym : String → Nat
  XtKeysymToKeycodeList : Nat → List Nat

/-- One `XGrabKey` request: key-code, modifier mask and grab window (the other
arguments are the same constants at the one call site). -/
structure GrabKey where
  keycode : Nat
  modifiers : Nat
  grab_window : Window
deriving DecidableEq, Repr

/-- Transcription of `grabxkey`: the `XGrabKey` requests it issues, in order;
`none` when it calls `exit(1)` because the name has no key symbol. -/
def grabxkey (env : Environment) (w : Window) (modifiers : Nat) (string : String) :
    Option (List GrabKey) :=
  let keysym := env.XStringToKeysym string
  if keysym = NoSymbol then none
  else some ((env.XtKeysymToKeycodeList keysym).map fun keycode => ⟨keycode, modifiers, w⟩)

/-- The loop `for (; *arg; arg++) grabxkey(d, rw, modifiers, *arg);` over the
arguments from `arg` up to the `NULL` that ends `argv`. The result is the
`XGrabKey` requests issued, in order, and whether the loop ran to its end
(`false`: a call of `grabxkey` ended the process with `exit(1)`). -/
def grab_loop (env : Environment) (rw : Window) (modifiers : Nat) :
    List String → List GrabKey × Bool
  | [] => ([], true)
  | arg :: rest =>
    match grabxkey env rw modifiers arg with
    | none => ([], false)
    | some grabs =>
      let (more, finished) := grab_loop env rw modifiers rest
      (grabs ++ more, finished)

/-- The block from `arg = argv+3` to the end of the `strcmp` chain: the value
of `discard` and the position of `arg` after it. `arg[0]` is the first
argument after the subwindow id, or, when there is none, the `NULL` that ends
`argv`; `strcmp` on `NULL` is undefined (`none`). -/
def parse_discard (arg : List String) : Option (Discard × List String) :=
  match arg with
  | [] => none
  | arg0 :: rest =>
    if arg0 = "--discard=always" then some (.discard_always, rest)
    else if arg0 = "--discard=modifier" then some (.discard_modifier, rest)
    else if arg0 = "--discard=never" then some (.discard_never, rest)
    else some (.discard_never, arg0 :: rest)

/-- How the part of `main` before the event loop ends: with `exit(status)`,
in undefined behaviour, or by entering the event loop with the given values
of the locals. `grabs` are the `XGrabKey` requests issued until then. -/
inductive Startup
  | exit (status : Nat) (grabs : List GrabKey)
  | undefined
  | event_loop (c : Config) (s : Locals) (grabs : List GrabKey)
deriving DecidableEq, Repr

/-- The part of `main` before the event loop. `argv` is the argument vector
including `argv[0]`, taken to hold no option that `XtOpenDisplay` would
remove. The `argc < 3` test is the failure of the pattern
`_ :: argv1 :: argv2 :: arg`. -/
def main_startup (env : Environment) (argv : List String) : Startup :=
  match argv with
  | _ :: argv1 :: argv2 :: arg =>
    if env.display then
      match parse_discard arg with
      | none => .undefined
      | some (discard, names) =>
        match grab_loop env env.root env.pointer_mask names with
        | (grabs, false) => .exit 1 grabs
        | (grabs, true) =>
          .event_loop ⟨env.root, env.strtoul argv1, env.strtoul argv2, discard⟩
            (Locals.initial env.pointer_mask) grabs
    else .exit 1 []
  | _ => .exit 1 []

/-- The `XGrabKey` requests for a list of names that all resolve: for each
name in order, one request for each of its key-codes in order. -/
def grabs_for (env : Environment) (rw : Window) (modifiers : Nat) : List String → List GrabKey
  | [] => []
  | name :: rest =>
    (env.XtKeysymToKeycodeList (env.XStringToKeysym name)).map
      (fun keycode => ⟨keycode, modifiers, rw⟩) ++ grabs_for env rw modifiers rest

/-- An environment for concrete runs: display available, root window 1,
modifier mask 16, every window id read as 7, the names `F20` and `F21` with one
key-code each (96 and 97), and no other name with a key symbol. -/
def sample_environment : Environment :=
  { display := true
    root := 1
    pointer_mask := 16
    strtoul := fun _ => 7
    XStringToKeysym := fun name =>
      if name = "F20" then 65489 else if name = "F21" then 65490 else 0
    XtKeysymToKeycodeList := fun keysym =>
      if keysym = 65489 then [96] else if keysym = 65490 then [97] else [] }

/-! ## `reverse_array` reverses -/

theorem reverse_array_prefix (l : List Window) (k : Nat) (hk : k ≤ l.length / 2) :
    ∃ a, (List.range k).foldlM (reverse_array_body l.length) l = some a ∧
      a.length = l.length ∧ ∀ j, j < l.length → a[j]? = swapped l k j := by
  induction k with
  | zero =>
    refine ⟨l, by simp, rfl, ?_⟩
    intro j hj
    simp only [swapped]
    rw [if_neg (by omega)]
  | succ k ih =>
    obtain ⟨a, ha, hlen, hget⟩ := ih (by omega)
    have h1 : k < l.length := by omega
    have h2 : l.length - k - 1 < l.length := by omega
    have e1 : a[l.length - k - 1]? = l[l.length - k - 1]? := by
      rw [hget _ h2]; simp [swapped]; omega
    have e2 : a[k]? = l[k]? := by
      rw [hget _ h1]; simp [swapped]; omega
    rw [List.range_succ, List.foldlM_append, ha]
    simp only [Option.bind_eq_bind, Option.some_bind, List.foldlM_cons, List.foldlM_nil]
    unfold reverse_array_body
    rw [e1, e2, List.getElem?_eq_getElem h1, List.getElem?_eq_getElem h2]
    refine ⟨_, rfl, by simp [hlen], ?_⟩
    intro j hj
    simp only [List.getElem?_set, List.length_set, hlen]
    have hprev := hget j hj
    unfold swapped at hprev ⊢
    by_cases c1 : k = j
    · subst c1
      simp [h1]
      have hidx : l.length - 1 - k = l.length - k - 1 := by omega
      rw [hidx, List.getElem?_eq_getElem h2]
    · by_cases c2 : l.length - k - 1 = j
      · subst c2
        simp only [c1, if_false, if_true, h2]
        rw [if_pos (by omega)]
        have hidx : l.length - 1 - (l.length - k - 1) = k := by omega
        rw [hidx, List.getElem?_eq_getElem h1]
      · simp only [c1, c2, if_false]
        rw [hprev]
        have hiff : (j < k ∨ l.length - k ≤ j) ↔ (j < k + 1 ∨ l.length - (k + 1) ≤ j) := by
          omega
        simp only [hiff]

/-- Called with the length of the array, `reverse_array` stays inside the
array and leaves it reversed. -/
theorem reverse_array_eq_reverse (l : List Window) :
    reverse_array l l.length = some l.reverse := by
  obtain ⟨a, ha, _, hget⟩ := reverse_array_prefix l (l.length / 2) (le_refl _)
  unfold reverse_array
  rw [ha]
  congr 1
  apply List.ext_getElem?
  intro j
  by_cases hj : j < l.length
  · rw [hget j hj]
    unfold swapped
    have hcase : j < l.length / 2 ∨ l.length - l.length / 2 ≤ j ∨ l.length - 1 - j = j := by
      omega
    rw [List.getElem?_reverse hj]
    rcases hcase with h | h | h
    · simp [h]
    · simp [h]
    · split
      · rfl
      · rw [h]
  · rw [List.getElem?_eq_none (by omega), List.getElem?_eq_none (by simp; omega)]

/-! ## Single-shot use: press, then release -/

/-- What a `KeyPress` does in `forward_some_keys`, for each discard policy. -/
theorem step_press_idle (c : Config) (s : Locals) (r : Replies) (p : XKeyEvent)
    (hs : s.state = .forward_some_keys) (hp : p.type = .KeyPress) :
    ∃ s1, step c s r p = some (s1,
        [.XGrabKeyboard c.rw, .XQueryTree c.rw, .XRaiseWindow c.w, .XGetInputFocus,
          .XSetInputFocus c.sw RevertToNone] ++
          send_block c p (decide (c.discard = .discard_never))) ∧
      s1.state = .magic_key_held ∧ s1.trigger_keycode = some p.keycode ∧
      s1.fw = some r.focus ∧ s1.revert_to = some r.revert_to ∧
      s1.stacking_order = r.children.map List.reverse ∧
      s1.trigger_event = (if c.discard = .discard_modifier then some p else s.trigger_event) ∧
      s1.modifiers = s.modifiers := by
  cases hc : r.children <;> cases hd : c.discard <;>
    simp [step, switch_state, hs, hp, hc, hd, reverse_array_eq_reverse]

/-- What the `KeyRelease` of the trigger does in `magic_key_held`, for each
discard policy. -/
theorem step_release_held (c : Config) (s : Locals) (r : Replies) (q : XKeyEvent)
    (hs : s.state = .magic_key_held) (hq : q.type = .KeyRelease)
    (hk : s.trigger_keycode = some q.keycode) :
    step c s r q =
      match c.discard with
      | .discard_always => some ({ s with state := .forward_some_keys }, [.XUngrabKeyboard])
      | .discard_modifier =>
        match s.trigger_event with
        | none => none
        | some trigger_event =>
          some ({ s with state := .forward_some_keys },
            [.XSendEvent c.w trigger_event, .XUngrabKeyboard, .XSendEvent c.w (forwarded c q)])
      | .discard_never =>
        some ({ s with state := .forward_some_keys },
          [.XUngrabKeyboard, .XSendEvent c.w (forwarded c q)]) := by
  cases hd : c.discard <;> cases ht : s.trigger_event <;>
    simp [step, switch_state, hs, hq, hk, hd, ht, send_block]

/-- C1. With the policy `discard_never`, a press of a key followed by the
release of the same key, starting in `forward_some_keys`, sends exactly two
synthetic events: the press while the press is processed and the release while
the release is processed, both to the target window and both with window and
subwindow fields set to the target window and subwindow; the machine ends in
`forward_some_keys`. -/
theorem never_press_release_forwards_both (c : Config) (s : Locals) (r1 r2 : Replies)
    (p q : XKeyEvent) (hd : c.discard = .discard_never) (hs : s.state = .forward_some_keys)
    (hp : p.type = .KeyPress) (hq : q.type = .KeyRelease) (hk : q.keycode = p.keycode) :
    ∃ s1 calls1 s2 calls2,
      step c s r1 p = some (s1, calls1) ∧ step c s1 r2 q = some (s2, calls2) ∧
      sent calls1 = [(c.w, forwarded c p)] ∧ sent calls2 = [(c.w, forwarded c q)] ∧
      (forwarded c p).type = .KeyPress ∧ (forwarded c p).keycode = p.keycode ∧
      (forwarded c p).time = p.time ∧
      (forwarded c q).type = .KeyRelease ∧ (forwarded c q).keycode = p.keycode ∧
      (forwarded c q).time = q.time ∧
      (forwarded c p).window = c.w ∧ (forwarded c p).subwindow = c.sw ∧
      (forwarded c q).window = c.w ∧ (forwarded c q).subwindow = c.sw ∧
      s2.state = .forward_some_keys := by
  obtain ⟨s1, h1, hs1, ht1, -⟩ := step_press_idle c s r1 p hs hp
  have h2 := step_release_held c s1 r2 q hs1 hq (by rw [ht1, hk])
  simp only [hd] at h1 h2
  exact ⟨_, _, _, _, h1, h2, by simp [sent, send_block, forwarded, hp, hq, hk]⟩

/-- Witness for `never_press_release_forwards_both`: key-code 38 pressed at
time 100 and released at time 160, target window 7 and subwindow 8. -/
theorem never_press_release_forwards_both_witness :
    ∃ s1 calls1 s2 calls2,
      step ⟨1, 7, 8, .discard_never⟩ (Locals.initial 0) ⟨some [3, 7, 5], 5, 1⟩
        ⟨.KeyPress, 1, 0, 100, 0, 38⟩ = some (s1, calls1) ∧
      step ⟨1, 7, 8, .discard_never⟩ s1 ⟨none, 8, 0⟩ ⟨.KeyRelease, 1, 0, 160, 0, 38⟩ =
        some (s2, calls2) ∧
      sent calls1 = [(7, forwarded ⟨1, 7, 8, .discard_never⟩ ⟨.KeyPress, 1, 0, 100, 0, 38⟩)] ∧
      sent calls2 = [(7, forwarded ⟨1, 7, 8, .discard_never⟩ ⟨.KeyRelease, 1, 0, 160, 0, 38⟩)] ∧
      (forwarded ⟨1, 7, 8, .discard_never⟩ ⟨.KeyPress, 1, 0, 100, 0, 38⟩).type = .KeyPress ∧
      (forwarded ⟨1, 7, 8, .discard_never⟩ ⟨.KeyPress, 1, 0, 100, 0, 38⟩).keycode = 38 ∧
      (forwarded ⟨1, 7, 8, .discard_never⟩ ⟨.KeyPress, 1, 0, 100, 0, 38⟩).time = 100 ∧
      (forwarded ⟨1, 7, 8, .discard_never⟩ ⟨.KeyRelease, 1, 0, 160, 0, 38⟩).type = .KeyRelease ∧
      (forwarded ⟨1, 7, 8, .discard_never⟩ ⟨.KeyRelease, 1, 0, 160, 0, 38⟩).keycode = 38 ∧
      (forwarded ⟨1, 7, 8, .discard_never⟩ ⟨.KeyRelease, 1, 0, 160, 0, 38⟩).time = 160 ∧
      (forwarded ⟨1, 7, 8, .discard_never⟩ ⟨.KeyPress, 1, 0, 100, 0, 38⟩).window = 7 ∧
      (forwarded ⟨1, 7, 8, .discard_never⟩ ⟨.KeyPress, 1, 0, 100, 0, 38⟩).subwindow = 8 ∧
      (forwarded ⟨1, 7, 8, .discard_never⟩ ⟨.KeyRelease, 1, 0, 160, 0, 38⟩).window = 7 ∧
      (forwarded ⟨1, 7, 8, .discard_never⟩ ⟨.KeyRelease, 1, 0, 160, 0, 38⟩).subwindow = 8 ∧
      s2.state = .forward_some_keys :=
  never_press_release_forwards_both ⟨1, 7, 8, .discard_never⟩ (Locals.initial 0)
    ⟨some [3, 7, 5], 5, 1⟩ ⟨none, 8, 0⟩ ⟨.KeyPress, 1, 0, 100, 0, 38⟩
    ⟨.KeyRelease, 1, 0, 160, 0, 38⟩ rfl rfl rfl rfl rfl

/-- C2, as stated, fails. Policy `discard_modifier`, target window 7 and
subwindow 8, key-code 38 pressed at time 100 and released at time 160 with
nothing in between: the release step sends two synthetic events, the retained
press and then the release itself, so the cycle emits two events and not one. -/
theorem modifier_press_release_sends_two :
    ∃ s1 calls1 s2 calls2,
      step ⟨1, 7, 8, .discard_modifier⟩ (Locals.initial 0) ⟨some [3, 7, 5], 5, 1⟩
        ⟨.KeyPress, 1, 0, 100, 0, 38⟩ = some (s1, calls1) ∧
      step ⟨1, 7, 8, .discard_modifier⟩ s1 ⟨none, 8, 0⟩ ⟨.KeyRelease, 1, 0, 160, 0, 38⟩ =
        some (s2, calls2) ∧
      sent (calls1 ++ calls2) =
        [(7, ⟨.KeyPress, 1, 0, 100, 0, 38⟩), (7, ⟨.KeyRelease, 7, 8, 160, 0, 38⟩)] ∧
      (sent (calls1 ++ calls2)).length ≠ 1 :=
  ⟨_, _, _, _, rfl, rfl, rfl, by decide⟩

/-- C2, amended. With the policy `discard_modifier`, a press of a key followed
by the release of the same key, starting in `forward_some_keys`, sends nothing
while the press is processed and exactly two synthetic events while the
release is processed: first the retained press (a `KeyPress` with the key-code
and timestamp of the trigger press), then the release, forwarded with window
and subwindow set to the target; the machine ends in `forward_some_keys`. -/
theorem modifier_press_release_replays_then_forwards (c : Config) (s : Locals)
    (r1 r2 : Replies) (p q : XKeyEvent) (hd : c.discard = .discard_modifier)
    (hs : s.state = .forward_some_keys) (hp : p.type = .KeyPress)
    (hq : q.type = .KeyRelease) (hk : q.keycode = p.keycode) :
    ∃ s1 calls1 s2 calls2 e,
      step c s r1 p = some (s1, calls1) ∧ step c s1 r2 q = some (s2, calls2) ∧
      sent calls1 = [] ∧ sent calls2 = [(c.w, e), (c.w, forwarded c q)] ∧
      e.type = .KeyPress ∧ e.keycode = p.keycode ∧ e.time = p.time ∧
      (forwarded c q).type = .KeyRelease ∧ (forwarded c q).keycode = p.keycode ∧
      (forwarded c q).window = c.w ∧ (forwarded c q).subwindow = c.sw ∧
      s2.state = .forward_some_keys := by
  obtain ⟨s1, h1, hs1, ht1, -, -, -, he1, -⟩ := step_press_idle c s r1 p hs hp
  have h2 := step_release_held c s1 r2 q hs1 hq (by rw [ht1, hk])
  simp only [hd, if_true] at h1 h2 he1
  simp only [he1] at h2
  exact ⟨_, _, _, _, p, h1, h2, by simp [sent, send_block, forwarded, hp, hq, hk]⟩

/-- Witness for `modifier_press_release_replays_then_forwards`: key-code 38
pressed at time 100 and released at time 160. -/
theorem modifier_press_release_replays_then_forwards_witness :
    ∃ s1 calls1 s2 calls2 e,
      step ⟨1, 7, 8, .discard_modifier⟩ (Locals.initial 0) ⟨some [3, 7, 5], 5, 1⟩
        ⟨.KeyPress, 1, 0, 100, 0, 38⟩ = some (s1, calls1) ∧
      step ⟨1, 7, 8, .discard_modifier⟩ s1 ⟨none, 8, 0⟩ ⟨.KeyRelease, 1, 0, 160, 0, 38⟩ =
        some (s2, calls2) ∧
      sent calls1 = [] ∧
      sent calls2 =
        [(7, e), (7, forwarded ⟨1, 7, 8, .discard_modifier⟩ ⟨.KeyRelease, 1, 0, 160, 0, 38⟩)] ∧
      e.type = .KeyPress ∧ e.keycode = 38 ∧ e.time = 100 ∧
      (forwarded ⟨1, 7, 8, .discard_modifier⟩ ⟨.KeyRelease, 1, 0, 160, 0, 38⟩).type =
        .KeyRelease ∧
      (forwarded ⟨1, 7, 8, .discard_modifier⟩ ⟨.KeyRelease, 1, 0, 160, 0, 38⟩).keycode = 38 ∧
      (forwarded ⟨1, 7, 8, .discard_modifier⟩ ⟨.KeyRelease, 1, 0, 160, 0, 38⟩).window = 7 ∧
      (forwarded ⟨1, 7, 8, .discard_modifier⟩ ⟨.KeyRelease, 1, 0, 160, 0, 38⟩).subwindow = 8 ∧
      s2.state = .forward_some_keys :=
  modifier_press_release_replays_then_forwards ⟨1, 7, 8, .discard_modifier⟩ (Locals.initial 0)
    ⟨some [3, 7, 5], 5, 1⟩ ⟨none, 8, 0⟩ ⟨.KeyPress, 1, 0, 100, 0, 38⟩
    ⟨.KeyRelease, 1, 0, 160, 0, 38⟩ rfl rfl rfl rfl rfl

/-- C3. With the policy `discard_always`, a press of a key followed by the
release of the same key, starting in `forward_some_keys`, sends no synthetic
event at all, and the machine ends in `forward_some_keys`. -/
theorem always_press_release_sends_nothing (c : Config) (s : Locals) (r1 r2 : Replies)
    (p q : XKeyEvent) (hd : c.discard = .discard_always) (hs : s.state = .forward_some_keys)
    (hp : p.type = .KeyPress) (hq : q.type = .KeyRelease) (hk : q.keycode = p.keycode) :
    ∃ s1 calls1 s2 calls2,
      step c s r1 p = some (s1, calls1) ∧ step c s1 r2 q = some (s2, calls2) ∧
      sent calls1 = [] ∧ sent calls2 = [] ∧ sent (calls1 ++ calls2) = [] ∧
      s2.state = .forward_some_keys := by
  obtain ⟨s1, h1, hs1, ht1, -⟩ := step_press_idle c s r1 p hs hp
  have h2 := step_release_held c s1 r2 q hs1 hq (by rw [ht1, hk])
  simp only [hd] at h1 h2
  exact ⟨_, _, _, _, h1, h2, by simp [sent, send_block]⟩

/-- Witness for `always_press_release_sends_nothing`: key-code 38 pressed at
time 100 and released at time 160. -/
theorem always_press_release_sends_nothing_witness :
    ∃ s1 calls1 s2 calls2,
      step ⟨1, 7, 8, .discard_always⟩ (Locals.initial 0) ⟨some [3, 7, 5], 5, 1⟩
        ⟨.KeyPress, 1, 0, 100, 0, 38⟩ = some (s1, calls1) ∧
      step ⟨1, 7, 8, .discard_always⟩ s1 ⟨none, 8, 0⟩ ⟨.KeyRelease, 1, 0, 160, 0, 38⟩ =
        some (s2, calls2) ∧
      sent calls1 = [] ∧ sent calls2 = [] ∧ sent (calls1 ++ calls2) = [] ∧
      s2.state = .forward_some_keys :=
  always_press_release_sends_nothing ⟨1, 7, 8, .discard_always⟩ (Locals.initial 0)
    ⟨some [3, 7, 5], 5, 1⟩ ⟨none, 8, 0⟩ ⟨.KeyPress, 1, 0, 100, 0, 38⟩
    ⟨.KeyRelease, 1, 0, 160, 0, 38⟩ rfl rfl rfl rfl rfl

/-- Unfolding of `step_on` at a defined step. -/
theorem step_on_eq {c : Config} {s s1 : Locals} {x : XServer} {ev : XKeyEvent}
    {calls : List Call} (h : step c s x.replies ev = some (s1, calls)) :
    step_on c s x ev = some (s1, calls.foldl XServer.exec x, calls) := by
  simp [step_on, h]

/-- C4, as stated, fails. Policy `discard_never`, target window 7 and
subwindow 8; before the press the focus is window 5 and the root's children
are 3, 7, 5 from bottom to top. After the press and release of key-code 38 the
machine is back in `forward_some_keys`, but the focus is window 8 and the
stacking order is 3, 5, 7: neither is what it was before the press. -/
theorem single_shot_leaves_focus_and_stacking_changed :
    ∃ s1 x1 calls1 s2 x2 calls2,
      step_on ⟨1, 7, 8, .discard_never⟩ (Locals.initial 0) ⟨5, 1, [3, 7, 5], false⟩
        ⟨.KeyPress, 1, 0, 100, 0, 38⟩ = some (s1, x1, calls1) ∧
      step_on ⟨1, 7, 8, .discard_never⟩ s1 x1 ⟨.KeyRelease, 1, 0, 160, 0, 38⟩ =
        some (s2, x2, calls2) ∧
      s2.state = .forward_some_keys ∧
      x2.focus = 8 ∧ x2.focus ≠ 5 ∧ x2.stacking = [3, 5, 7] ∧ x2.stacking ≠ [3, 7, 5] :=
  ⟨_, _, _, _, _, _, rfl, rfl, rfl, rfl, by decide, rfl, by decide⟩

/-- C4, amended. For every discard policy and every state of the server, a
press of a key followed by the release of the same key, starting in
`forward_some_keys`, brings the machine back to `forward_some_keys` with the
keyboard grab released, and the release issues no request other than
`XUngrabKeyboard` and `XSendEvent`: the focus is left on the target subwindow
with revert mode `RevertToNone`, and the stacking order is the one before the
press with the target window raised. -/
theorem single_shot_keeps_target_focused_and_raised (c : Config) (s : Locals) (x : XServer)
    (p q : XKeyEvent) (hs : s.state = .forward_some_keys) (hp : p.type = .KeyPress)
    (hq : q.type = .KeyRelease) (hk : q.keycode = p.keycode) :
    ∃ s1 x1 calls1 s2 x2 calls2,
      step_on c s x p = some (s1, x1, calls1) ∧ step_on c s1 x1 q = some (s2, x2, calls2) ∧
      s2.state = .forward_some_keys ∧ x2.keyboard_grabbed = false ∧
      (∀ call ∈ calls2, call = .XUngrabKeyboard ∨ ∃ e, call = .XSendEvent c.w e) ∧
      x2.focus = c.sw ∧ x2.revert_to = RevertToNone ∧
      x2.stacking = raise_window c.w x.stacking := by
  obtain ⟨s1, h1, hs1, ht1, -, -, -, he1, -⟩ := step_press_idle c s x.replies p hs hp
  have hx1 := step_on_eq h1
  have h2 := fun r => step_release_held c s1 r q hs1 hq (by rw [ht1, hk])
  cases hd : c.discard <;> simp only [hd, if_true, if_false] at h2 he1
  · exact ⟨_, _, _, _, _, _, hx1, step_on_eq (h2 _), rfl, rfl,
      by simp, by simp [send_block, hd, XServer.exec]⟩
  · simp only [he1] at h2
    exact ⟨_, _, _, _, _, _, hx1, step_on_eq (h2 _), rfl, rfl,
      by simp, by simp [send_block, hd, XServer.exec]⟩
  · exact ⟨_, _, _, _, _, _, hx1, step_on_eq (h2 _), rfl, rfl,
      by simp, by simp [send_block, hd, XServer.exec]⟩

/-- Witness for `single_shot_keeps_target_focused_and_raised`: policy
`discard_modifier`, focus on window 5 and children 3, 7, 5 before the press. -/
theorem single_shot_keeps_target_focused_and_raised_witness :
    ∃ s1 x1 calls1 s2 x2 calls2,
      step_on ⟨1, 7, 8, .discard_modifier⟩ (Locals.initial 0) ⟨5, 1, [3, 7, 5], false⟩
        ⟨.KeyPress, 1, 0, 100, 0, 38⟩ = some (s1, x1, calls1) ∧
      step_on ⟨1, 7, 8, .discard_modifier⟩ s1 x1 ⟨.KeyRelease, 1, 0, 160, 0, 38⟩ =
        some (s2, x2, calls2) ∧
      s2.state = .forward_some_keys ∧ x2.keyboard_grabbed = false ∧
      (∀ call ∈ calls2, call = .XUngrabKeyboard ∨ ∃ e, call = .XSendEvent 7 e) ∧
      x2.focus = 8 ∧ x2.revert_to = RevertToNone ∧
      x2.stacking = raise_window 7 [3, 7, 5] :=
  single_shot_keeps_target_focused_and_raised ⟨1, 7, 8, .discard_modifier⟩ (Locals.initial 0)
    ⟨5, 1, [3, 7, 5], false⟩ ⟨.KeyPress, 1, 0, 100, 0, 38⟩ ⟨.KeyRelease, 1, 0, 160, 0, 38⟩
    rfl rfl rfl rfl

/-! ## Use as a modifier: press, other keys, release -/

/-- While the trigger is down, an event that is not the release of the trigger
is always processed, leaves the saved variables alone, keeps the machine out
of `forward_some_keys`, and puts or keeps it in `as_modifier` once an event
with another key-code has been seen. -/
theorem step_while_held (c : Config) (s : Locals) (r : Replies) (ev : XKeyEvent) (tk : Nat)
    (hs : s.state ≠ .forward_some_keys) (ht : s.trigger_keycode = some tk)
    (hev : ¬(ev.type = .KeyRelease ∧ ev.keycode = tk)) :
    ∃ s1 calls, step c s r ev = some (s1, calls) ∧ s1.saved = s.saved ∧
      s1.state ≠ .forward_some_keys ∧
      (s.state = .as_modifier ∨ ev.keycode ≠ tk → s1.state = .as_modifier) := by
  rcases hst : s.state with _ | _ | _
  · exact absurd hst hs
  · cases hty : ev.type
    · simp [step, switch_state, hst, hty, Locals.saved]
    · have hne : ev.keycode ≠ tk := fun h => hev ⟨hty, h⟩
      simp [step, switch_state, hst, hty, ht, hne, Locals.saved]
  · cases hty : ev.type
    · by_cases hk : ev.keycode = tk
      · simp [step, switch_state, hst, hty, ht, hk, Locals.saved]
      · simp [step, switch_state, hst, hty, ht, hk, Locals.saved]
    · have hne : ev.keycode ≠ tk := fun h => hev ⟨hty, h⟩
      simp [step, switch_state, hst, hty, ht, hne, Locals.saved]

/-- The same over a sequence of events none of which releases the trigger. -/
theorem run_while_held (c : Config) (tk : Nat) (mid : List (XKeyEvent × Replies)) :
    ∀ s : Locals, s.state ≠ .forward_some_keys → s.trigger_keycode = some tk →
      (∀ x ∈ mid, ¬(x.1.type = .KeyRelease ∧ x.1.keycode = tk)) →
      ∃ s1 calls, run c s mid = some (s1, calls) ∧ s1.saved = s.saved ∧
        s1.state ≠ .forward_some_keys ∧
        (s.state = .as_modifier ∨ (∃ x ∈ mid, x.1.keycode ≠ tk) → s1.state = .as_modifier) := by
  induction mid with
  | nil =>
    intro s hs _ _
    exact ⟨s, [], rfl, rfl, hs, by simp⟩
  | cons x rest ih =>
    intro s hs ht hno
    obtain ⟨s1, calls1, h1, hsv1, hs1, hm1⟩ :=
      step_while_held c s x.2 x.1 tk hs ht (hno x (List.mem_cons_self _ _))
    have ht1 : s1.trigger_keycode = some tk := by
      have := congrArg Prod.fst hsv1
      simpa [Locals.saved, ht] using this
    obtain ⟨s2, calls2, h2, hsv2, hs2, hm2⟩ :=
      ih s1 hs1 ht1 (fun y hy => hno y (List.mem_cons_of_mem _ hy))
    refine ⟨s2, calls1 ++ calls2, ?_, hsv2.trans hsv1, hs2, ?_⟩
    · obtain ⟨ev, r⟩ := x
      simp only [run]
      simp only at h1
      rw [h1]
      simp only [h2]
    · rintro (h | ⟨y, hy, hne⟩)
      · exact hm2 (Or.inl (hm1 (Or.inl h)))
      · rcases List.mem_cons.mp hy with rfl | hy
        · exact hm2 (Or.inl (hm1 (Or.inr hne)))
        · exact hm2 (Or.inr ⟨y, hy, hne⟩)

/-- What the `KeyRelease` of the trigger does in `as_modifier`. -/
theorem step_release_modifier (c : Config) (s : Locals) (r : Replies) (q : XKeyEvent)
    (fw : Window) (revert_to : Int) (hs : s.state = .as_modifier)
    (hq : q.type = .KeyRelease) (hk : s.trigger_keycode = some q.keycode)
    (hf : s.fw = some fw) (hr : s.revert_to = some revert_to) :
    step c s r q = some ({ s with state := .forward_some_keys },
      [.XSetInputFocus fw revert_to] ++
        (match s.stacking_order with
          | some a => [.XRestackWindows a]
          | none => []) ++
        [.XUngrabKeyboard, .XSendEvent c.w (forwarded c q)]) := by
  simp [step, switch_state, hs, hq, hk, hf, hr, send_block]

/-- C5, as stated, fails. Target window 7 and subwindow 8; `XQueryTree` hands
back `NULL` at the press of key-code 38 (the root has no children); key-code 40
is pressed and released while 38 is down. The release of 38 restores the focus
to window 5 with revert mode 1 and ends the grab, but it issues no
`XRestackWindows` at all. -/
theorem chord_release_without_children_does_not_restack :
    ∃ s1 calls1 s2 calls2,
      run ⟨1, 7, 8, .discard_never⟩ (Locals.initial 0)
        [(⟨.KeyPress, 1, 0, 100, 0, 38⟩, ⟨none, 5, 1⟩),
          (⟨.KeyPress, 1, 0, 120, 0, 40⟩, ⟨none, 8, 0⟩),
          (⟨.KeyRelease, 1, 0, 140, 0, 40⟩, ⟨none, 8, 0⟩)] = some (s1, calls1) ∧
      step ⟨1, 7, 8, .discard_never⟩ s1 ⟨none, 8, 0⟩ ⟨.KeyRelease, 1, 0, 160, 0, 38⟩ =
        some (s2, calls2) ∧
      calls2 = [.XSetInputFocus 5 1, .XUngrabKeyboard,
        .XSendEvent 7 ⟨.KeyRelease, 7, 8, 160, 0, 38⟩] ∧
      ∀ l, Call.XRestackWindows l ∉ calls2 :=
  ⟨_, _, _, _, rfl, rfl, rfl, by intro l; simp [send_block]⟩

/-- C5, amended. Start in `forward_some_keys` with the press of a trigger key,
continue with any events none of which is the release of the trigger and at
least one of which has another key-code, and end with the release of the
trigger. While that release is processed the machine issues, in this order,
`XSetInputFocus` with the window and revert mode that `XGetInputFocus`
returned at the trigger press; `XRestackWindows` with the reverse of the array
`XQueryTree` handed back at the trigger press when it handed one back, and no
`XRestackWindows` when it handed back `NULL`; `XUngrabKeyboard`; and the
forwarded release. The machine ends in `forward_some_keys`. -/
theorem chord_release_restores_focus_and_stacking (c : Config) (s : Locals) (r0 rq : Replies)
    (p q : XKeyEvent) (mid : List (XKeyEvent × Replies))
    (hs : s.state = .forward_some_keys) (hp : p.type = .KeyPress)
    (hq : q.type = .KeyRelease) (hk : q.keycode = p.keycode)
    (hno : ∀ x ∈ mid, ¬(x.1.type = .KeyRelease ∧ x.1.keycode = p.keycode))
    (hother : ∃ x ∈ mid, x.1.keycode ≠ p.keycode) :
    ∃ s1 calls1 s2 calls2,
      run c s ((p, r0) :: mid) = some (s1, calls1) ∧ step c s1 rq q = some (s2, calls2) ∧
      calls2 = [.XSetInputFocus r0.focus r0.revert_to] ++
        (match r0.children with
          | some l => [.XRestackWindows l.reverse]
          | none => []) ++
        [.XUngrabKeyboard, .XSendEvent c.w (forwarded c q)] ∧
      s2.state = .forward_some_keys := by
  obtain ⟨s0, h0, hs0, ht0, hf0, hr0, hso0, -, -⟩ := step_press_idle c s r0 p hs hp
  obtain ⟨s1, calls1, h1, hsv, -, hm⟩ :=
    run_while_held c p.keycode mid s0 (by rw [hs0]; decide) ht0 hno
  have hs1 : s1.state = .as_modifier := hm (Or.inr hother)
  simp only [Locals.saved, Prod.mk.injEq] at hsv
  obtain ⟨e1, e2, e3, e4, -⟩ := hsv
  have h2 := step_release_modifier c s1 rq q r0.focus r0.revert_to hs1 hq
    (by rw [e1, ht0, hk]) (by rw [e2, hf0]) (by rw [e3, hr0])
  have hrun : run c s ((p, r0) :: mid) = some (s1,
      ([.XGrabKeyboard c.rw, .XQueryTree c.rw, .XRaiseWindow c.w, .XGetInputFocus,
        .XSetInputFocus c.sw RevertToNone] ++
        send_block c p (decide (c.discard = .discard_never))) ++ calls1) := by
    simp only [run, h0, h1]
  have hcalls : (match s1.stacking_order with
      | some a => [Call.XRestackWindows a]
      | none => []) =
      (match r0.children with
      | some l => [Call.XRestackWindows l.reverse]
      | none => []) := by
    rw [e4, hso0]
    cases r0.children <;> rfl
  rw [hcalls] at h2
  exact ⟨_, _, _, _, hrun, h2, rfl, rfl⟩

/-- Witness for `chord_release_restores_focus_and_stacking`: key-code 38 is
the trigger, key-code 40 is pressed and released while it is down; at the
press the focus is window 5 and the root's children are 3, 7, 5. -/
theorem chord_release_restores_focus_and_stacking_witness :
    ∃ s1 calls1 s2 calls2,
      run ⟨1, 7, 8, .discard_always⟩ (Locals.initial 0)
        ((⟨.KeyPress, 1, 0, 100, 0, 38⟩, ⟨some [3, 7, 5], 5, 1⟩) ::
          [(⟨.KeyPress, 1, 0, 120, 0, 40⟩, ⟨none, 8, 0⟩),
            (⟨.KeyRelease, 1, 0, 140, 0, 40⟩, ⟨none, 8, 0⟩)]) = some (s1, calls1) ∧
      step ⟨1, 7, 8, .discard_always⟩ s1 ⟨none, 8, 0⟩ ⟨.KeyRelease, 1, 0, 160, 0, 38⟩ =
        some (s2, calls2) ∧
      calls2 = [.XSetInputFocus (Replies.mk (some [3, 7, 5]) 5 1).focus
          (Replies.mk (some [3, 7, 5]) 5 1).revert_to] ++
        (match (Replies.mk (some [3, 7, 5]) 5 1).children with
          | some l => [.XRestackWindows l.reverse]
          | none => []) ++
        [.XUngrabKeyboard, .XSendEvent 7
          (forwarded ⟨1, 7, 8, .discard_always⟩ ⟨.KeyRelease, 1, 0, 160, 0, 38⟩)] ∧
      s2.state = .forward_some_keys :=
  chord_release_restores_focus_and_stacking ⟨1, 7, 8, .discard_always⟩ (Locals.initial 0)
    ⟨some [3, 7, 5], 5, 1⟩ ⟨none, 8, 0⟩ ⟨.KeyPress, 1, 0, 100, 0, 38⟩
    ⟨.KeyRelease, 1, 0, 160, 0, 38⟩
    [(⟨.KeyPress, 1, 0, 120, 0, 40⟩, ⟨none, 8, 0⟩),
      (⟨.KeyRelease, 1, 0, 140, 0, 40⟩, ⟨none, 8, 0⟩)]
    rfl rfl rfl rfl (by decide) (by decide)

/-! ## What a step sends -/

/-- Synthetic events sent inside the `switch`: none, except that the release
of the trigger in `magic_key_held` under `discard_modifier` replays the
retained press and leaves `do_send` set. -/
theorem switch_state_sent (c : Config) (s s1 : Locals) (r : Replies) (ev : XKeyEvent)
    (pre : List Call) (do_send : Bool) (h : switch_state c s r ev = some (s1, pre, do_send)) :
    sent pre = [] ∨
      (c.discard = .discard_modifier ∧ s.state = .magic_key_held ∧ do_send = true ∧
        ∃ te, s.trigger_event = some te ∧ sent pre = [(c.w, te)]) := by
  unfold switch_state at h
  split at h
  · split at h
    · revert h
      cases r.children <;> cases c.discard <;>
        simp only [reverse_array_eq_reverse, Option.map_some'] <;>
        intro h <;> simp only [Option.some.injEq, Prod.mk.injEq] at h <;>
        obtain ⟨-, rfl, -⟩ := h <;> exact Or.inl rfl
    · simp only [Option.some.injEq, Prod.mk.injEq] at h
      obtain ⟨-, rfl, -⟩ := h
      exact Or.inl rfl
  · rename_i hst
    split at h
    · exact absurd h (by simp)
    · split at h
      · split at h <;> simp only [Option.some.injEq, Prod.mk.injEq] at h <;>
          obtain ⟨-, rfl, -⟩ := h <;> exact Or.inl rfl
      · split at h
        · split at h
          · simp only [Option.some.injEq, Prod.mk.injEq] at h
            obtain ⟨-, rfl, -⟩ := h
            exact Or.inl rfl
          · rename_i hd
            split at h
            · exact absurd h (by simp)
            · rename_i te hte
              simp only [Option.some.injEq, Prod.mk.injEq] at h
              obtain ⟨-, rfl, rfl⟩ := h
              exact Or.inr ⟨hd, hst, rfl, te, hte, rfl⟩
          · simp only [Option.some.injEq, Prod.mk.injEq] at h
            obtain ⟨-, rfl, -⟩ := h
            exact Or.inl rfl
        · simp only [Option.some.injEq, Prod.mk.injEq] at h
          obtain ⟨-, rfl, -⟩ := h
          exact Or.inl rfl
  · split at h
    · simp only [Option.some.injEq, Prod.mk.injEq] at h
      obtain ⟨-, rfl, -⟩ := h
      exact Or.inl rfl
    · split at h
      · exact absurd h (by simp)
      · split at h
        · split at h
          · simp only [Option.some.injEq, Prod.mk.injEq] at h
            obtain ⟨-, rfl, -⟩ := h
            left
            cases s.stacking_order <;> rfl
          · exact absurd h (by simp)
        · simp only [Option.some.injEq, Prod.mk.injEq] at h
          obtain ⟨-, rfl, -⟩ := h
          exact Or.inl rfl

/-- Inversion of the `switch`: a defined result comes from exactly one of its
branches. The branches are listed in source order. -/
theorem switch_state_cases (c : Config) (s s1 : Locals) (r : Replies) (ev : XKeyEvent)
    (pre : List Call) (do_send : Bool) (h : switch_state c s r ev = some (s1, pre, do_send)) :
    (s.state = .forward_some_keys ∧ ev.type = .KeyPress ∧
      s1 = { s with
              trigger_keycode := some ev.keycode
              state := .magic_key_held
              stacking_order := r.children.map List.reverse
              fw := some r.focus
              revert_to := some r.revert_to
              trigger_event :=
                if c.discard = .discard_modifier then some ev else s.trigger_event } ∧
      pre = [.XGrabKeyboard c.rw, .XQueryTree c.rw, .XRaiseWindow c.w, .XGetInputFocus,
        .XSetInputFocus c.sw RevertToNone] ∧
      do_send = decide (c.discard = .discard_never)) ∨
    (s.state = .forward_some_keys ∧ ev.type = .KeyRelease ∧ s1 = s ∧ pre = [] ∧
      do_send = false) ∨
    (s.state = .magic_key_held ∧ ev.type = .KeyPress ∧
      s.trigger_keycode = some ev.keycode ∧ s1 = s ∧ pre = [] ∧ do_send = false) ∨
    (s.state = .magic_key_held ∧ ev.type = .KeyPress ∧
      (∃ tk, s.trigger_keycode = some tk ∧ ev.keycode ≠ tk) ∧
      s1 = { s with state := .as_modifier } ∧ pre = [] ∧ do_send = true) ∨
    (s.state = .magic_key_held ∧ ev.type = .KeyRelease ∧
      s.trigger_keycode = some ev.keycode ∧ s1 = { s with state := .forward_some_keys } ∧
      ((c.discard = .discard_always ∧ pre = [.XUngrabKeyboard] ∧ do_send = false) ∨
        (c.discard = .discard_modifier ∧ do_send = true ∧
          ∃ te, s.trigger_event = some te ∧ pre = [.XSendEvent c.w te, .XUngrabKeyboard]) ∨
        (c.discard = .discard_never ∧ pre = [.XUngrabKeyboard] ∧ do_send = true))) ∨
    (s.state = .magic_key_held ∧ ev.type = .KeyRelease ∧
      (∃ tk, s.trigger_keycode = some tk ∧ ev.keycode ≠ tk) ∧
      s1 = { s with state := .as_modifier } ∧ pre = [] ∧ do_send = false) ∨
    (s.state = .as_modifier ∧
      (ev.type = .KeyPress ∨
        (ev.type = .KeyRelease ∧ ∃ tk, s.trigger_keycode = some tk ∧ ev.keycode ≠ tk)) ∧
      s1 = s ∧ pre = [] ∧ do_send = true) ∨
    (s.state = .as_modifier ∧ ev.type = .KeyRelease ∧
      s.trigger_keycode = some ev.keycode ∧ s1 = { s with state := .forward_some_keys } ∧
      do_send = true ∧
      ∃ fw revert_to, s.fw = some fw ∧ s.revert_to = some revert_to ∧
        pre = [.XSetInputFocus fw revert_to] ++
          (match s.stacking_order with
            | some a => [.XRestackWindows a]
            | none => []) ++ [.XUngrabKeyboard]) := by
  unfold switch_state at h
  split at h
  · rename_i hst
    split at h
    · rename_i hty
      left
      revert h
      cases r.children <;> cases hd : c.discard <;>
        simp only [reverse_array_eq_reverse, Option.map_some', Option.map_none'] <;>
        intro h <;> simp only [Option.some.injEq, Prod.mk.injEq] at h <;>
        obtain ⟨rfl, rfl, rfl⟩ := h <;> simp [hst, hty]
    · rename_i hty
      simp only [Option.some.injEq, Prod.mk.injEq] at h
      obtain ⟨rfl, rfl, rfl⟩ := h
      exact Or.inr (Or.inl ⟨hst, hty, rfl, rfl, rfl⟩)
  · rename_i hst
    split at h
    · exact absurd h (by simp)
    · rename_i tk htk
      split at h
      · rename_i hty
        split at h <;> rename_i hk <;> simp only [Option.some.injEq, Prod.mk.injEq] at h <;>
          obtain ⟨rfl, rfl, rfl⟩ := h
        · exact Or.inr (Or.inr (Or.inr (Or.inl ⟨hst, hty, ⟨tk, htk, hk⟩, rfl, rfl, rfl⟩)))
        · have hk2 : ev.keycode = tk := not_not.mp hk
          exact Or.inr (Or.inr (Or.inl ⟨hst, hty, by rw [htk, hk2], rfl, rfl, rfl⟩))
      · rename_i hty
        split at h
        · rename_i hk
          right; right; right; right; left
          refine ⟨hst, hty, by rw [htk, hk], ?_⟩
          split at h
          · rename_i hd
            simp only [Option.some.injEq, Prod.mk.injEq] at h
            obtain ⟨rfl, rfl, rfl⟩ := h
            exact ⟨rfl, Or.inl ⟨hd, rfl, rfl⟩⟩
          · rename_i hd
            split at h
            · exact absurd h (by simp)
            · rename_i te hte
              simp only [Option.some.injEq, Prod.mk.injEq] at h
              obtain ⟨rfl, rfl, rfl⟩ := h
              exact ⟨rfl, Or.inr (Or.inl ⟨hd, rfl, te, hte, rfl⟩)⟩
          · rename_i hd
            simp only [Option.some.injEq, Prod.mk.injEq] at h
            obtain ⟨rfl, rfl, rfl⟩ := h
            exact ⟨rfl, Or.inr (Or.inr ⟨hd, rfl, rfl⟩)⟩
        · rename_i hk
          simp only [Option.some.injEq, Prod.mk.injEq] at h
          obtain ⟨rfl, rfl, rfl⟩ := h
          exact Or.inr (Or.inr (Or.inr (Or.inr (Or.inr (Or.inl
            ⟨hst, hty, ⟨tk, htk, hk⟩, rfl, rfl, rfl⟩)))))
  · rename_i hst
    split at h
    · rename_i hty
      simp only [Option.some.injEq, Prod.mk.injEq] at h
      obtain ⟨rfl, rfl, rfl⟩ := h
      exact Or.inr (Or.inr (Or.inr (Or.inr (Or.inr (Or.inr (Or.inl
        ⟨hst, Or.inl hty, rfl, rfl, rfl⟩))))))
    · rename_i hty
      split at h
      · exact absurd h (by simp)
      · rename_i tk htk
        split at h
        · rename_i hk
          split at h
          · rename_i fw revert_to hfw hrv
            simp only [Option.some.injEq, Prod.mk.injEq] at h
            obtain ⟨rfl, rfl, rfl⟩ := h
            exact Or.inr (Or.inr (Or.inr (Or.inr (Or.inr (Or.inr (Or.inr
              ⟨hst, hty, by rw [htk, hk], rfl, rfl, fw, revert_to, hfw, hrv, rfl⟩))))))
          · exact absurd h (by simp)
        · rename_i hk
          simp only [Option.some.injEq, Prod.mk.injEq] at h
          obtain ⟨rfl, rfl, rfl⟩ := h
          exact Or.inr (Or.inr (Or.inr (Or.inr (Or.inr (Or.inr (Or.inl
            ⟨hst, Or.inr ⟨hty, tk, htk, hk⟩, rfl, rfl, rfl⟩))))))

theorem sent_append (a b : List Call) : sent (a ++ b) = sent a ++ sent b := by
  induction a with
  | nil => rfl
  | cons x rest ih => cases x <;> simp [sent, ih]

/-- The synthetic events of one step: nothing, the forwarded input event, or,
for the release of the trigger in `magic_key_held` under `discard_modifier`,
the retained press followed by the forwarded input event. -/
theorem step_sent (c : Config) (s s1 : Locals) (r : Replies) (ev : XKeyEvent)
    (calls : List Call) (h : step c s r ev = some (s1, calls)) :
    sent calls = [] ∨ sent calls = [(c.w, forwarded c ev)] ∨
      (c.discard = .discard_modifier ∧ s.state = .magic_key_held ∧
        ∃ te, s.trigger_event = some te ∧ sent calls = [(c.w, te), (c.w, forwarded c ev)]) := by
  unfold step at h
  cases hsw : switch_state c s r ev with
  | none => simp [hsw] at h
  | some t =>
    obtain ⟨s2, pre, do_send⟩ := t
    simp only [hsw, Option.some.injEq, Prod.mk.injEq] at h
    obtain ⟨-, rfl⟩ := h
    rcases switch_state_sent c s s2 r ev pre do_send hsw with hp | ⟨hd, hst, hds, te, hte, hp⟩
    · cases do_send <;> simp [sent_append, hp, send_block, sent]
    · right; right
      exact ⟨hd, hst, te, hte, by simp [sent_append, hp, hds, send_block, sent]⟩

/-! ## The rows of the transition table -/

theorem step_release_idle (c : Config) (s : Locals) (r : Replies) (ev : XKeyEvent)
    (hs : s.state = .forward_some_keys) (hty : ev.type = .KeyRelease) :
    step c s r ev = some (s, []) := by
  simp [step, switch_state, hs, hty, send_block]

theorem step_press_held_trigger (c : Config) (s : Locals) (r : Replies) (ev : XKeyEvent)
    (hs : s.state = .magic_key_held) (hty : ev.type = .KeyPress)
    (ht : s.trigger_keycode = some ev.keycode) :
    step c s r ev = some (s, []) := by
  simp [step, switch_state, hs, hty, ht, send_block]

theorem step_press_held_other (c : Config) (s : Locals) (r : Replies) (ev : XKeyEvent)
    (tk : Nat) (hs : s.state = .magic_key_held) (hty : ev.type = .KeyPress)
    (ht : s.trigger_keycode = some tk) (hk : ev.keycode ≠ tk) :
    step c s r ev =
      some ({ s with state := .as_modifier }, [.XSendEvent c.w (forwarded c ev)]) := by
  simp [step, switch_state, hs, hty, ht, hk, send_block]

theorem step_release_held_other (c : Config) (s : Locals) (r : Replies) (ev : XKeyEvent)
    (tk : Nat) (hs : s.state = .magic_key_held) (hty : ev.type = .KeyRelease)
    (ht : s.trigger_keycode = some tk) (hk : ev.keycode ≠ tk) :
    step c s r ev = some ({ s with state := .as_modifier }, []) := by
  simp [step, switch_state, hs, hty, ht, hk, send_block]

theorem step_modifier_other (c : Config) (s : Locals) (r : Replies) (ev : XKeyEvent)
    (tk : Nat) (hs : s.state = .as_modifier) (ht : s.trigger_keycode = some tk)
    (hev : ¬(ev.type = .KeyRelease ∧ ev.keycode = tk)) :
    step c s r ev = some (s, [.XSendEvent c.w (forwarded c ev)]) := by
  cases hty : ev.type
  · simp [step, switch_state, hs, hty, send_block]
  · have hne : ev.keycode ≠ tk := fun h => hev ⟨hty, h⟩
    simp [step, switch_state, hs, hty, ht, hne, send_block]

/-- C6. Every synthetic event a step sends is the input event with window and
subwindow overwritten by the target window and subwindow, sent to the target
window (the one other send is the replay of the retained press under
`discard_modifier`); key-code, event type, timestamp and modifier state are
those of the input event. In particular, after the press of a trigger, the
press and the release of another key are both forwarded, each while it is
processed, with their own key-code, type and timestamp. -/
theorem forward_action_rewrites_only_window_fields (c : Config) (s s1 : Locals) (r : Replies)
    (ev : XKeyEvent) (calls : List Call) (h : step c s r ev = some (s1, calls))
    (s0 : Locals) (r0 ra rb : Replies) (p a b : XKeyEvent)
    (hs0 : s0.state = .forward_some_keys) (hp : p.type = .KeyPress)
    (ha : a.type = .KeyPress) (hb : b.type = .KeyRelease)
    (hka : a.keycode ≠ p.keycode) (hkb : b.keycode = a.keycode) :
    (∀ x ∈ sent calls, x = (c.w, forwarded c ev) ∨
      (c.discard = .discard_modifier ∧ s.state = .magic_key_held ∧
        s.trigger_event = some x.2 ∧ x.1 = c.w)) ∧
    forwarded c ev = { ev with window := c.w, subwindow := c.sw } ∧
    (forwarded c ev).keycode = ev.keycode ∧ (forwarded c ev).type = ev.type ∧
    (forwarded c ev).time = ev.time ∧ (forwarded c ev).state = ev.state ∧
    (forwarded c ev).window = c.w ∧ (forwarded c ev).subwindow = c.sw ∧
    ∃ t1 k1 t2 k2 t3 k3,
      step c s0 r0 p = some (t1, k1) ∧ step c t1 ra a = some (t2, k2) ∧
      step c t2 rb b = some (t3, k3) ∧
      sent k2 = [(c.w, forwarded c a)] ∧ sent k3 = [(c.w, forwarded c b)] ∧
      (forwarded c a).keycode = a.keycode ∧ (forwarded c a).type = .KeyPress ∧
      (forwarded c a).time = a.time ∧
      (forwarded c b).keycode = a.keycode ∧ (forwarded c b).type = .KeyRelease ∧
      (forwarded c b).time = b.time := by
  refine ⟨?_, rfl, rfl, rfl, rfl, rfl, rfl, rfl, ?_⟩
  · intro x hx
    rcases step_sent c s s1 r ev calls h with h0 | h1 | ⟨hd, hst, te, hte, h2⟩
    · rw [h0] at hx
      exact absurd hx (List.not_mem_nil _)
    · rw [h1] at hx
      exact Or.inl (List.mem_singleton.mp hx)
    · rw [h2] at hx
      rcases List.mem_cons.mp hx with rfl | hx
      · exact Or.inr ⟨hd, hst, hte, rfl⟩
      · exact Or.inl (List.mem_singleton.mp hx)
  · obtain ⟨t1, h1, hs1, ht1, -⟩ := step_press_idle c s0 r0 p hs0 hp
    have h2 := step_press_held_other c t1 ra a p.keycode hs1 ha ht1 hka
    have h3 := step_modifier_other c { t1 with state := .as_modifier } rb b p.keycode rfl ht1
      (fun hh => hka (hkb ▸ hh.2))
    exact ⟨_, _, _, _, _, _, h1, h2, h3, rfl, rfl, rfl, ha, rfl, hkb, hb, rfl⟩

/-- Witness for `forward_action_rewrites_only_window_fields`: the step is the
release of trigger 38 under `discard_modifier` (which sends the replay and the
forwarded release); the chord is trigger 38 with key-code 40. -/
theorem forward_action_rewrites_only_window_fields_witness :
    (∀ x ∈ sent [Call.XSendEvent 7 ⟨.KeyPress, 1, 0, 100, 0, 38⟩, .XUngrabKeyboard,
        .XSendEvent 7 ⟨.KeyRelease, 7, 8, 160, 0, 38⟩],
      x = (7, forwarded ⟨1, 7, 8, .discard_modifier⟩ ⟨.KeyRelease, 1, 0, 160, 0, 38⟩) ∨
      ((Config.mk 1 7 8 .discard_modifier).discard = .discard_modifier ∧
        (Locals.mk .magic_key_held (some 38) (some 5) (some 1) none
          (some ⟨.KeyPress, 1, 0, 100, 0, 38⟩) 0).state = .magic_key_held ∧
        (Locals.mk .magic_key_held (some 38) (some 5) (some 1) none
          (some ⟨.KeyPress, 1, 0, 100, 0, 38⟩) 0).trigger_event = some x.2 ∧ x.1 = 7)) ∧
    forwarded ⟨1, 7, 8, .discard_modifier⟩ ⟨.KeyRelease, 1, 0, 160, 0, 38⟩ =
      ⟨.KeyRelease, 7, 8, 160, 0, 38⟩ ∧
    (forwarded ⟨1, 7, 8, .discard_modifier⟩ ⟨.KeyRelease, 1, 0, 160, 0, 38⟩).keycode = 38 ∧
    (forwarded ⟨1, 7, 8, .discard_modifier⟩ ⟨.KeyRelease, 1, 0, 160, 0, 38⟩).type =
      .KeyRelease ∧
    (forwarded ⟨1, 7, 8, .discard_modifier⟩ ⟨.KeyRelease, 1, 0, 160, 0, 38⟩).time = 160 ∧
    (forwarded ⟨1, 7, 8, .discard_modifier⟩ ⟨.KeyRelease, 1, 0, 160, 0, 38⟩).state = 0 ∧
    (forwarded ⟨1, 7, 8, .discard_modifier⟩ ⟨.KeyRelease, 1, 0, 160, 0, 38⟩).window = 7 ∧
    (forwarded ⟨1, 7, 8, .discard_modifier⟩ ⟨.KeyRelease, 1, 0, 160, 0, 38⟩).subwindow = 8 ∧
    ∃ t1 k1 t2 k2 t3 k3,
      step ⟨1, 7, 8, .discard_modifier⟩ (Locals.initial 0) ⟨some [3, 7, 5], 5, 1⟩
        ⟨.KeyPress, 1, 0, 100, 0, 38⟩ = some (t1, k1) ∧
      step ⟨1, 7, 8, .discard_modifier⟩ t1 ⟨none, 8, 0⟩ ⟨.KeyPress, 1, 0, 120, 0, 40⟩ =
        some (t2, k2) ∧
      step ⟨1, 7, 8, .discard_modifier⟩ t2 ⟨none, 8, 0⟩ ⟨.KeyRelease, 1, 0, 140, 0, 40⟩ =
        some (t3, k3) ∧
      sent k2 = [(7, forwarded ⟨1, 7, 8, .discard_modifier⟩ ⟨.KeyPress, 1, 0, 120, 0, 40⟩)] ∧
      sent k3 = [(7, forwarded ⟨1, 7, 8, .discard_modifier⟩ ⟨.KeyRelease, 1, 0, 140, 0, 40⟩)] ∧
      (forwarded ⟨1, 7, 8, .discard_modifier⟩ ⟨.KeyPress, 1, 0, 120, 0, 40⟩).keycode = 40 ∧
      (forwarded ⟨1, 7, 8, .discard_modifier⟩ ⟨.KeyPress, 1, 0, 120, 0, 40⟩).type =
        .KeyPress ∧
      (forwarded ⟨1, 7, 8, .discard_modifier⟩ ⟨.KeyPress, 1, 0, 120, 0, 40⟩).time = 120 ∧
      (forwarded ⟨1, 7, 8, .discard_modifier⟩ ⟨.KeyRelease, 1, 0, 140, 0, 40⟩).keycode = 40 ∧
      (forwarded ⟨1, 7, 8, .discard_modifier⟩ ⟨.KeyRelease, 1, 0, 140, 0, 40⟩).type =
        .KeyRelease ∧
      (forwarded ⟨1, 7, 8, .discard_modifier⟩ ⟨.KeyRelease, 1, 0, 140, 0, 40⟩).time = 140 :=
  forward_action_rewrites_only_window_fields ⟨1, 7, 8, .discard_modifier⟩
    ⟨.magic_key_held, some 38, some 5, some 1, none, some ⟨.KeyPress, 1, 0, 100, 0, 38⟩, 0⟩
    ⟨.forward_some_keys, some 38, some 5, some 1, none, some ⟨.KeyPress, 1, 0, 100, 0, 38⟩, 0⟩
    ⟨none, 8, 0⟩ ⟨.KeyRelease, 1, 0, 160, 0, 38⟩
    [.XSendEvent 7 ⟨.KeyPress, 1, 0, 100, 0, 38⟩, .XUngrabKeyboard,
      .XSendEvent 7 ⟨.KeyRelease, 7, 8, 160, 0, 38⟩] rfl
    (Locals.initial 0) ⟨some [3, 7, 5], 5, 1⟩ ⟨none, 8, 0⟩ ⟨none, 8, 0⟩
    ⟨.KeyPress, 1, 0, 100, 0, 38⟩ ⟨.KeyPress, 1, 0, 120, 0, 40⟩
    ⟨.KeyRelease, 1, 0, 140, 0, 40⟩ rfl rfl rfl rfl (by decide) rfl

/-- C7. The step function follows the rows of the transition table for
`forward_some_keys` (Idle) and `magic_key_held` (KeyHeld), for every key-code
and trigger `tk`: a release in Idle changes nothing and issues no request; a
press in Idle leads to KeyHeld with the event's key-code as trigger; in
KeyHeld a press of the trigger changes nothing and issues no request, a press
of another key leads to `as_modifier` and forwards the event, the release of
the trigger leads to Idle and issues `XUngrabKeyboard` (under
`discard_modifier`, given that the retained press is assigned), and the
release of another key leads to `as_modifier` and issues no request. -/
theorem step_follows_transition_table (c : Config) (s : Locals) (r : Replies)
    (ev : XKeyEvent) (tk : Nat) :
    (s.state = .forward_some_keys → ev.type = .KeyRelease → step c s r ev = some (s, [])) ∧
    (s.state = .forward_some_keys → ev.type = .KeyPress →
      ∃ s1 calls, step c s r ev = some (s1, calls) ∧ s1.state = .magic_key_held ∧
        s1.trigger_keycode = some ev.keycode) ∧
    (s.state = .magic_key_held → s.trigger_keycode = some tk → ev.type = .KeyPress →
      ev.keycode = tk → step c s r ev = some (s, [])) ∧
    (s.state = .magic_key_held → s.trigger_keycode = some tk → ev.type = .KeyPress →
      ev.keycode ≠ tk →
      step c s r ev =
        some ({ s with state := .as_modifier }, [.XSendEvent c.w (forwarded c ev)])) ∧
    (s.state = .magic_key_held → s.trigger_keycode = some tk → ev.type = .KeyRelease →
      ev.keycode = tk → (c.discard = .discard_modifier → s.trigger_event ≠ none) →
      ∃ s1 calls, step c s r ev = some (s1, calls) ∧ s1.state = .forward_some_keys ∧
        .XUngrabKeyboard ∈ calls) ∧
    (s.state = .magic_key_held → s.trigger_keycode = some tk → ev.type = .KeyRelease →
      ev.keycode ≠ tk → step c s r ev = some ({ s with state := .as_modifier }, [])) := by
  refine ⟨step_release_idle c s r ev, ?_, ?_, ?_, ?_, ?_⟩
  · intro hs hty
    obtain ⟨s1, h1, hs1, ht1, -⟩ := step_press_idle c s r ev hs hty
    exact ⟨s1, _, h1, hs1, ht1⟩
  · intro hs ht hty hk
    exact step_press_held_trigger c s r ev hs hty (by rw [ht, hk])
  · intro hs ht hty hk
    exact step_press_held_other c s r ev tk hs hty ht hk
  · intro hs ht hty hk hte
    have h := step_release_held c s r ev hs hty (by rw [ht, hk])
    cases hd : c.discard
    · simp only [hd] at h
      exact ⟨_, _, h, rfl, by simp⟩
    · cases hev : s.trigger_event with
      | none => exact absurd hev (hte hd)
      | some te =>
        simp only [hd, hev] at h
        exact ⟨_, _, h, rfl, by simp⟩
    · simp only [hd] at h
      exact ⟨_, _, h, rfl, by simp⟩
  · intro hs ht hty hk
    exact step_release_held_other c s r ev tk hs hty ht hk

/-- Witness for `step_follows_transition_table`: one concrete instance of each
of the six rows, with trigger key-code 38 and other key-code 40. -/
theorem step_follows_transition_table_witness :
    step ⟨1, 7, 8, .discard_never⟩ (Locals.initial 0) ⟨none, 5, 1⟩
      ⟨.KeyRelease, 1, 0, 100, 0, 38⟩ = some (Locals.initial 0, []) ∧
    (∃ s1 calls, step ⟨1, 7, 8, .discard_never⟩ (Locals.initial 0) ⟨none, 5, 1⟩
      ⟨.KeyPress, 1, 0, 100, 0, 38⟩ = some (s1, calls) ∧ s1.state = .magic_key_held ∧
        s1.trigger_keycode = some 38) ∧
    step ⟨1, 7, 8, .discard_never⟩ ⟨.magic_key_held, some 38, some 5, some 1, none, none, 0⟩
      ⟨none, 5, 1⟩ ⟨.KeyPress, 1, 0, 110, 0, 38⟩ =
      some (⟨.magic_key_held, some 38, some 5, some 1, none, none, 0⟩, []) ∧
    step ⟨1, 7, 8, .discard_never⟩ ⟨.magic_key_held, some 38, some 5, some 1, none, none, 0⟩
      ⟨none, 5, 1⟩ ⟨.KeyPress, 1, 0, 110, 0, 40⟩ =
      some (⟨.as_modifier, some 38, some 5, some 1, none, none, 0⟩,
        [.XSendEvent 7 (forwarded ⟨1, 7, 8, .discard_never⟩ ⟨.KeyPress, 1, 0, 110, 0, 40⟩)]) ∧
    (∃ s1 calls, step ⟨1, 7, 8, .discard_never⟩
      ⟨.magic_key_held, some 38, some 5, some 1, none, none, 0⟩
      ⟨none, 5, 1⟩ ⟨.KeyRelease, 1, 0, 110, 0, 38⟩ = some (s1, calls) ∧
        s1.state = .forward_some_keys ∧ .XUngrabKeyboard ∈ calls) ∧
    step ⟨1, 7, 8, .discard_never⟩ ⟨.magic_key_held, some 38, some 5, some 1, none, none, 0⟩
      ⟨none, 5, 1⟩ ⟨.KeyRelease, 1, 0, 110, 0, 40⟩ =
      some (⟨.as_modifier, some 38, some 5, some 1, none, none, 0⟩, []) :=
  ⟨(step_follows_transition_table ⟨1, 7, 8, .discard_never⟩ (Locals.initial 0) ⟨none, 5, 1⟩
      ⟨.KeyRelease, 1, 0, 100, 0, 38⟩ 38).1 rfl rfl,
    (step_follows_transition_table ⟨1, 7, 8, .discard_never⟩ (Locals.initial 0) ⟨none, 5, 1⟩
      ⟨.KeyPress, 1, 0, 100, 0, 38⟩ 38).2.1 rfl rfl,
    (step_follows_transition_table ⟨1, 7, 8, .discard_never⟩
      ⟨.magic_key_held, some 38, some 5, some 1, none, none, 0⟩ ⟨none, 5, 1⟩
      ⟨.KeyPress, 1, 0, 110, 0, 38⟩ 38).2.2.1 rfl rfl rfl rfl,
    (step_follows_transition_table ⟨1, 7, 8, .discard_never⟩
      ⟨.magic_key_held, some 38, some 5, some 1, none, none, 0⟩ ⟨none, 5, 1⟩
      ⟨.KeyPress, 1, 0, 110, 0, 40⟩ 38).2.2.2.1 rfl rfl rfl (by decide),
    (step_follows_transition_table ⟨1, 7, 8, .discard_never⟩
      ⟨.magic_key_held, some 38, some 5, some 1, none, none, 0⟩ ⟨none, 5, 1⟩
      ⟨.KeyRelease, 1, 0, 110, 0, 38⟩ 38).2.2.2.2.1 rfl rfl rfl rfl (by decide),
    (step_follows_transition_table ⟨1, 7, 8, .discard_never⟩
      ⟨.magic_key_held, some 38, some 5, some 1, none, none, 0⟩ ⟨none, 5, 1⟩
      ⟨.KeyRelease, 1, 0, 110, 0, 40⟩ 38).2.2.2.2.2 rfl rfl rfl (by decide)⟩

/-! ## Keyboard capture -/

theorem step_eq_some (c : Config) (s s1 : Locals) (r : Replies) (ev : XKeyEvent)
    (calls : List Call) (h : step c s r ev = some (s1, calls)) :
    ∃ pre do_send, switch_state c s r ev = some (s1, pre, do_send) ∧
      calls = pre ++ send_block c ev do_send := by
  unfold step at h
  cases hsw : switch_state c s r ev with
  | none => simp [hsw] at h
  | some t =>
    obtain ⟨s2, pre, do_send⟩ := t
    simp only [hsw, Option.some.injEq, Prod.mk.injEq] at h
    obtain ⟨rfl, rfl⟩ := h
    exact ⟨pre, do_send, rfl, rfl⟩

theorem captured_after_append (b : Bool) (x y : List Call) :
    captured_after b (x ++ y) = captured_after (captured_after b x) y := by
  induction x generalizing b with
  | nil => rfl
  | cons a rest ih => cases a <;> simp [captured_after, ih]

theorem captured_after_send_block (b : Bool) (c : Config) (ev : XKeyEvent) (d : Bool) :
    captured_after b (send_block c ev d) = b := by
  cases d <;> simp [send_block, captured_after]

/-- A step either leaves `forward_some_keys` and grabs the keyboard, or enters
it and ungrabs the keyboard, or does neither and issues neither request. -/
theorem step_capture (c : Config) (s s1 : Locals) (r : Replies) (ev : XKeyEvent)
    (calls : List Call) (h : step c s r ev = some (s1, calls)) :
    (s.state = .forward_some_keys ∧ s1.state ≠ .forward_some_keys ∧
      .XGrabKeyboard c.rw ∈ calls ∧ ∀ b, captured_after b calls = true) ∨
    (s.state ≠ .forward_some_keys ∧ s1.state = .forward_some_keys ∧
      .XUngrabKeyboard ∈ calls ∧ ∀ b, captured_after b calls = false) ∨
    ((s1.state = .forward_some_keys ↔ s.state = .forward_some_keys) ∧
      ∀ b, captured_after b calls = b) := by
  obtain ⟨pre, do_send, hsw, rfl⟩ := step_eq_some c s s1 r ev calls h
  rcases switch_state_cases c s s1 r ev pre do_send hsw with
    ⟨hst, -, rfl, rfl, -⟩ | ⟨hst, -, rfl, rfl, -⟩ | ⟨hst, -, -, rfl, rfl, -⟩ |
    ⟨hst, -, -, rfl, rfl, -⟩ | ⟨hst, -, -, rfl, hpre⟩ | ⟨hst, -, -, rfl, rfl, -⟩ |
    ⟨hst, -, rfl, rfl, -⟩ | ⟨hst, -, -, rfl, -, fw, revert_to, -, -, rfl⟩
  · left
    refine ⟨hst, by simp, by simp, fun b => ?_⟩
    simp [captured_after_append, captured_after_send_block, captured_after]
  · right; right
    exact ⟨Iff.rfl, fun b => by simp [captured_after_send_block, captured_after]⟩
  · right; right
    exact ⟨Iff.rfl, fun b => by simp [captured_after_send_block, captured_after]⟩
  · right; right
    exact ⟨by simp [hst], fun b => by simp [captured_after_send_block, captured_after]⟩
  · right; left
    refine ⟨by simp [hst], rfl, ?_, fun b => ?_⟩
    · rcases hpre with ⟨-, rfl, -⟩ | ⟨-, -, te, -, rfl⟩ | ⟨-, rfl, -⟩ <;> simp
    · rcases hpre with ⟨-, rfl, -⟩ | ⟨-, -, te, -, rfl⟩ | ⟨-, rfl, -⟩ <;>
        simp [captured_after_append, captured_after_send_block, captured_after]
  · right; right
    exact ⟨by simp [hst], fun b => by simp [captured_after_send_block, captured_after]⟩
  · right; right
    exact ⟨Iff.rfl, fun b => by simp [captured_after_send_block, captured_after]⟩
  · right; left
    refine ⟨by simp [hst], rfl, by simp, fun b => ?_⟩
    cases s.stacking_order <;>
      simp [captured_after_append, captured_after_send_block, captured_after]

/-- With the saved variables assigned, every step is defined. -/
theorem step_defined (c : Config) (s : Locals) (r : Replies) (ev : XKeyEvent)
    (hv : Valid c s) : ∃ s1 calls, step c s r ev = some (s1, calls) := by
  rcases hst : s.state with _ | _ | _
  · cases hty : ev.type
    · obtain ⟨s1, h1, -⟩ := step_press_idle c s r ev hst hty
      exact ⟨s1, _, h1⟩
    · exact ⟨s, [], step_release_idle c s r ev hst hty⟩
  · obtain ⟨⟨tk, ht⟩, ⟨fw, hf⟩, ⟨rv, hr⟩⟩ := hv.1 (by rw [hst]; decide)
    by_cases hev : ev.type = .KeyRelease ∧ ev.keycode = tk
    · exact ⟨_, _, step_release_modifier c s r ev fw rv hst hev.1 (by rw [ht, hev.2]) hf hr⟩
    · exact ⟨_, _, step_modifier_other c s r ev tk hst ht hev⟩
  · obtain ⟨⟨tk, ht⟩, -⟩ := hv.1 (by rw [hst]; decide)
    by_cases hk : ev.keycode = tk
    · cases hty : ev.type
      · exact ⟨_, _, step_press_held_trigger c s r ev hst hty (by rw [ht, hk])⟩
      · have h := step_release_held c s r ev hst hty (by rw [ht, hk])
        cases hd : c.discard
        · simp only [hd] at h
          exact ⟨_, _, h⟩
        · obtain ⟨te, hte, -⟩ := hv.2 hd hst
          simp only [hd, hte] at h
          exact ⟨_, _, h⟩
        · simp only [hd] at h
          exact ⟨_, _, h⟩
    · cases hty : ev.type
      · exact ⟨_, _, step_press_held_other c s r ev tk hst hty ht hk⟩
      · exact ⟨_, _, step_release_held_other c s r ev tk hst hty ht hk⟩

/-- A step keeps the saved variables assigned. -/
theorem step_valid (c : Config) (s s1 : Locals) (r : Replies) (ev : XKeyEvent)
    (calls : List Call) (hv : Valid c s) (h : step c s r ev = some (s1, calls)) :
    Valid c s1 := by
  obtain ⟨pre, do_send, hsw, -⟩ := step_eq_some c s s1 r ev calls h
  rcases switch_state_cases c s s1 r ev pre do_send hsw with
    ⟨hst, hty, rfl, -⟩ | ⟨hst, -, rfl, -⟩ | ⟨hst, -, -, rfl, -⟩ |
    ⟨hst, -, -, rfl, -⟩ | ⟨hst, -, -, rfl, -⟩ | ⟨hst, -, -, rfl, -⟩ |
    ⟨hst, -, rfl, -⟩ | ⟨hst, -, -, rfl, -⟩
  · refine ⟨fun _ => ⟨⟨_, rfl⟩, ⟨_, rfl⟩, ⟨_, rfl⟩⟩, fun hd _ => ?_⟩
    exact ⟨ev, by simp [hd], hty, rfl⟩
  · exact hv
  · exact hv
  · have h1 := hv.1 (by rw [hst]; decide)
    exact ⟨fun _ => h1, fun _ hc => by simp at hc⟩
  · exact ⟨fun hc => absurd rfl hc, fun _ hc => by simp at hc⟩
  · have h1 := hv.1 (by rw [hst]; decide)
    exact ⟨fun _ => h1, fun _ hc => by simp at hc⟩
  · exact hv
  · exact ⟨fun hc => absurd rfl hc, fun _ hc => by simp at hc⟩

/-- Inversion of the loop body: either the event is skipped (it is not a key
event, or it is a release taken for an auto-repeat), or it reaches the state
machine, with the locals as they are apart from `modifiers`. -/
theorem loop_body_cases (c : Config) (s s1 : Locals) (inp : Input) (queue : List XEvent)
    (calls : List Call) (h : loop_body c s inp = some (s1, queue, calls)) :
    (s1.state = s.state ∧ s1.saved = s.saved ∧ (calls = [] ∨ calls = filter_calls c)) ∨
    ∃ ev s0 calls0, s0.state = s.state ∧ s0.saved = s.saved ∧
      step c s0 inp.replies ev = some (s1, calls0) ∧
      (calls = calls0 ∨ calls = filter_calls c ++ calls0) := by
  unfold loop_body at h
  split at h
  · simp only [Option.some.injEq, Prod.mk.injEq] at h
    obtain ⟨rfl, -, rfl⟩ := h
    exact Or.inl ⟨rfl, rfl, Or.inl rfl⟩
  · rename_i ev _
    split at h
    · split at h
      · simp only [Option.some.injEq, Prod.mk.injEq] at h
        obtain ⟨rfl, -, rfl⟩ := h
        exact Or.inl ⟨rfl, rfl, Or.inr rfl⟩
      · dsimp only at h
        split at h
        · exact absurd h (by simp)
        · rename_i s2 calls2 hstep
          simp only [Option.some.injEq, Prod.mk.injEq] at h
          obtain ⟨rfl, -, rfl⟩ := h
          exact Or.inr ⟨ev, { s with modifiers := inp.mask }, calls2, rfl, rfl, hstep,
            Or.inr rfl⟩
    · split at h
      · exact absurd h (by simp)
      · rename_i s2 calls2 hstep
        simp only [Option.some.injEq, Prod.mk.injEq] at h
        obtain ⟨rfl, -, rfl⟩ := h
        exact Or.inr ⟨ev, s, calls2, rfl, rfl, hstep, Or.inl rfl⟩

theorem valid_of_same_saved (c : Config) (s s0 : Locals) (hst : s0.state = s.state)
    (hsv : s0.saved = s.saved) (hv : Valid c s) : Valid c s0 := by
  simp only [Locals.saved, Prod.mk.injEq] at hsv
  obtain ⟨e1, e2, e3, -, e5⟩ := hsv
  unfold Valid
  rw [hst, e1, e2, e3, e5]
  exact hv

/-- With the saved variables assigned, every iteration of the loop is defined. -/
theorem loop_body_defined (c : Config) (s : Locals) (inp : Input) (hv : Valid c s) :
    ∃ s1 queue calls, loop_body c s inp = some (s1, queue, calls) := by
  unfold loop_body
  split
  · exact ⟨_, _, _, rfl⟩
  · rename_i ev _
    split
    · split
      · exact ⟨_, _, _, rfl⟩
      · obtain ⟨s2, calls2, h2⟩ := step_defined c { s with modifiers := inp.mask } inp.replies ev
          (valid_of_same_saved c s _ rfl rfl hv)
        simp only [h2]
        exact ⟨_, _, _, rfl⟩
    · obtain ⟨s2, calls2, h2⟩ := step_defined c s inp.replies ev hv
      simp only [h2]
      exact ⟨_, _, _, rfl⟩

theorem loop_body_valid (c : Config) (s s1 : Locals) (inp : Input) (queue : List XEvent)
    (calls : List Call) (hv : Valid c s) (h : loop_body c s inp = some (s1, queue, calls)) :
    Valid c s1 := by
  rcases loop_body_cases c s s1 inp queue calls h with
    ⟨hst, hsv, -⟩ | ⟨ev, s0, calls0, hst, hsv, hstep, -⟩
  · exact valid_of_same_saved c s s1 hst hsv hv
  · exact step_valid c s0 s1 inp.replies ev calls0 (valid_of_same_saved c s s0 hst hsv hv) hstep

theorem valid_initial (c : Config) (modifiers : Nat) : Valid c (Locals.initial modifiers) :=
  ⟨fun h => absurd rfl h, fun _ h => by simp [Locals.initial] at h⟩

/-- In every reachable state the saved variables are assigned. -/
theorem reachable_valid (c : Config) (s : Locals) (captured : Bool)
    (h : Reachable c s captured) : Valid c s := by
  induction h with
  | initial modifiers => exact valid_initial c modifiers
  | iteration inp _ hbody ih => exact loop_body_valid c _ _ inp _ _ ih hbody

theorem captured_after_filter_calls (b : Bool) (c : Config) :
    captured_after b (filter_calls c) = b := rfl

/-- An iteration of the loop either leaves `forward_some_keys` and grabs the
keyboard, or enters it and ungrabs, or does neither. -/
theorem loop_body_capture (c : Config) (s s1 : Locals) (inp : Input) (queue : List XEvent)
    (calls : List Call) (h : loop_body c s inp = some (s1, queue, calls)) :
    (s.state = .forward_some_keys ∧ s1.state ≠ .forward_some_keys ∧
      .XGrabKeyboard c.rw ∈ calls ∧ ∀ b, captured_after b calls = true) ∨
    (s.state ≠ .forward_some_keys ∧ s1.state = .forward_some_keys ∧
      .XUngrabKeyboard ∈ calls ∧ ∀ b, captured_after b calls = false) ∨
    ((s1.state = .forward_some_keys ↔ s.state = .forward_some_keys) ∧
      ∀ b, captured_after b calls = b) := by
  rcases loop_body_cases c s s1 inp queue calls h with
    ⟨hst, -, hc⟩ | ⟨ev, s0, calls0, hst, -, hstep, hc⟩
  · right; right
    refine ⟨by rw [hst], fun b => ?_⟩
    rcases hc with rfl | rfl <;> rfl
  · have hcap : ∀ b, captured_after b calls = captured_after b calls0 := by
      intro b
      rcases hc with rfl | rfl
      · rfl
      · rw [captured_after_append, captured_after_filter_calls]
    have hmem : ∀ x, x ∈ calls0 → x ∈ calls := by
      intro x hx
      rcases hc with rfl | rfl
      · exact hx
      · exact List.mem_append_right _ hx
    rcases step_capture c s0 s1 inp.replies ev calls0 hstep with
      ⟨a1, a2, a3, a4⟩ | ⟨a1, a2, a3, a4⟩ | ⟨a1, a4⟩
    · exact Or.inl ⟨hst ▸ a1, a2, hmem _ a3, fun b => (hcap b).trans (a4 b)⟩
    · exact Or.inr (Or.inl ⟨hst ▸ a1, a2, hmem _ a3, fun b => (hcap b).trans (a4 b)⟩)
    · exact Or.inr (Or.inr ⟨hst ▸ a1, fun b => (hcap b).trans (a4 b)⟩)

theorem reachable_captured (c : Config) (s : Locals) (captured : Bool)
    (h : Reachable c s captured) : captured = true ↔ s.state ≠ .forward_some_keys := by
  induction h with
  | initial modifiers => simp [Locals.initial]
  | iteration inp _ hbody ih =>
    rcases loop_body_capture c _ _ inp _ _ hbody with
      ⟨-, a2, -, a4⟩ | ⟨-, a2, -, a4⟩ | ⟨a1, a4⟩
    · simp [a4, a2]
    · simp [a4, a2]
    · rw [a4, ih, not_iff_not, a1]

/-- C8. Keyboard-capture invariant. In every state the event loop can reach
from its initial state (in `forward_some_keys`, keyboard not captured), under
every discard policy, the keyboard is captured exactly when the state is not
`forward_some_keys`. From such a state every iteration of the loop is defined,
every iteration that enters `forward_some_keys` issues `XUngrabKeyboard`, and
every iteration that leaves it issues `XGrabKeyboard` on the root window. -/
theorem keyboard_captured_iff_not_idle (c : Config) (s : Locals) (captured : Bool)
    (h : Reachable c s captured) :
    (captured = true ↔ s.state ≠ .forward_some_keys) ∧
    ∀ inp : Input,
      (∃ s1 queue calls, loop_body c s inp = some (s1, queue, calls)) ∧
      ∀ s1 queue calls, loop_body c s inp = some (s1, queue, calls) →
        (s.state ≠ .forward_some_keys → s1.state = .forward_some_keys →
          .XUngrabKeyboard ∈ calls) ∧
        (s.state = .forward_some_keys → s1.state ≠ .forward_some_keys →
          .XGrabKeyboard c.rw ∈ calls) := by
  refine ⟨reachable_captured c s captured h, fun inp => ?_⟩
  refine ⟨loop_body_defined c s inp (reachable_valid c s captured h), ?_⟩
  intro s1 queue calls hbody
  rcases loop_body_capture c s s1 inp queue calls hbody with
    ⟨a1, a2, a3, -⟩ | ⟨a1, a2, a3, -⟩ | ⟨a1, -⟩
  · exact ⟨fun hn => absurd a1 hn, fun _ _ => a3⟩
  · exact ⟨fun _ _ => a3, fun hi _ => absurd hi a1⟩
  · exact ⟨fun hn hi => absurd (a1.mp hi) hn, fun hi hn => absurd (a1.mpr hi) hn⟩

/-- Witness for `keyboard_captured_iff_not_idle`: the state reached from the
initial state by the press of key-code 38. -/
theorem keyboard_captured_iff_not_idle_witness :
    (captured_after false
        [.XGrabKeyboard 1, .XQueryTree 1, .XRaiseWindow 7, .XGetInputFocus,
          .XSetInputFocus 8 RevertToNone] = true ↔
      (Locals.mk .magic_key_held (some 38) (some 5) (some 1) (some [5, 7, 3])
        (some ⟨.KeyPress, 1, 0, 100, 0, 38⟩) 0).state ≠ .forward_some_keys) ∧
    ∀ inp : Input,
      (∃ s1 queue calls, loop_body ⟨1, 7, 8, .discard_modifier⟩
        (Locals.mk .magic_key_held (some 38) (some 5) (some 1) (some [5, 7, 3])
          (some ⟨.KeyPress, 1, 0, 100, 0, 38⟩) 0) inp = some (s1, queue, calls)) ∧
      ∀ s1 queue calls, loop_body ⟨1, 7, 8, .discard_modifier⟩
        (Locals.mk .magic_key_held (some 38) (some 5) (some 1) (some [5, 7, 3])
          (some ⟨.KeyPress, 1, 0, 100, 0, 38⟩) 0) inp = some (s1, queue, calls) →
        ((Locals.mk .magic_key_held (some 38) (some 5) (some 1) (some [5, 7, 3])
            (some ⟨.KeyPress, 1, 0, 100, 0, 38⟩) 0).state ≠ .forward_some_keys →
          s1.state = .forward_some_keys → .XUngrabKeyboard ∈ calls) ∧
        ((Locals.mk .magic_key_held (some 38) (some 5) (some 1) (some [5, 7, 3])
            (some ⟨.KeyPress, 1, 0, 100, 0, 38⟩) 0).state = .forward_some_keys →
          s1.state ≠ .forward_some_keys → .XGrabKeyboard 1 ∈ calls) :=
  keyboard_captured_iff_not_idle ⟨1, 7, 8, .discard_modifier⟩ _ _
    (Reachable.iteration
      ⟨.xkey ⟨.KeyPress, 1, 0, 100, 0, 38⟩, [], 0, ⟨some [3, 7, 5], 5, 1⟩⟩
      (Reachable.initial 0) rfl)

/-! ## The auto-repeat filter -/

theorem predicate_eq_true_iff (ev : XKeyEvent) (event : XEvent) :
    predicate ev event = true ↔
      ∃ k, event = .xkey k ∧ k.type = .KeyPress ∧ k.keycode = ev.keycode ∧ k.time = ev.time := by
  cases event with
  | xkey k =>
    simp only [predicate, Bool.and_eq_true, decide_eq_true_eq, XEvent.xkey.injEq]
    constructor
    · rintro ⟨⟨h1, h2⟩, h3⟩
      exact ⟨k, rfl, h1, h3, h2⟩
    · rintro ⟨k2, rfl, h1, h3, h2⟩
      exact ⟨⟨h1, h2⟩, h3⟩
  | other n => simp [predicate]

/-- `XCheckIfEvent` finds an event exactly when the queue holds one that
satisfies the predicate; it then removes one event from the queue. -/
theorem XCheckIfEvent_of_mem (p : XEvent → Bool) (queue : List XEvent)
    (h : ∃ e ∈ queue, p e = true) :
    ∃ found rest, XCheckIfEvent p queue = some (found, rest) ∧ p found = true ∧
      found ∈ queue ∧ rest.length + 1 = queue.length := by
  induction queue with
  | nil =>
    obtain ⟨e, he, -⟩ := h
    exact absurd he (List.not_mem_nil e)
  | cons a rest ih =>
    by_cases hp : p a = true
    · exact ⟨a, rest, by simp [XCheckIfEvent, hp], hp, List.mem_cons_self _ _, rfl⟩
    · obtain ⟨e, he, hpe⟩ := h
      have hin : e ∈ rest := by
        rcases List.mem_cons.mp he with rfl | h2
        · exact absurd hpe hp
        · exact h2
      obtain ⟨found, rest2, h1, h2, h3, h4⟩ := ih ⟨e, hin, hpe⟩
      refine ⟨found, a :: rest2, ?_, h2, List.mem_cons_of_mem _ h3, by simp [h4]⟩
      simp [XCheckIfEvent, hp, h1]

theorem XCheckIfEvent_of_not_mem (p : XEvent → Bool) (queue : List XEvent)
    (h : ¬∃ e ∈ queue, p e = true) : XCheckIfEvent p queue = none := by
  induction queue with
  | nil => rfl
  | cons a rest ih =>
    have hp : ¬p a = true := fun hp => h ⟨a, List.mem_cons_self _ _, hp⟩
    have hrest : ¬∃ e ∈ rest, p e = true := fun ⟨e, he, hpe⟩ =>
      h ⟨e, List.mem_cons_of_mem _ he, hpe⟩
    simp [XCheckIfEvent, hp, ih hrest]

theorem exists_predicate_iff (ev : XKeyEvent) (queue : List XEvent) :
    (∃ e ∈ queue, predicate ev e = true) ↔
      ∃ k, XEvent.xkey k ∈ queue ∧ k.type = .KeyPress ∧ k.keycode = ev.keycode ∧
        k.time = ev.time := by
  constructor
  · rintro ⟨e, he, hp⟩
    obtain ⟨k, rfl, h1, h2, h3⟩ := (predicate_eq_true_iff ev e).mp hp
    exact ⟨k, he, h1, h2, h3⟩
  · rintro ⟨k, hk, h1, h2, h3⟩
    exact ⟨.xkey k, hk, (predicate_eq_true_iff ev _).mpr ⟨k, rfl, h1, h2, h3⟩⟩

/-- C9. Repeat filter. For a key event `ev` returned by `XNextEvent`, whatever
the locals: if it is a release and the queue holds a press with the same
key-code and the same timestamp, the iteration ends before the `switch`: state,
trigger key-code, saved focus, saved stacking order and retained event are
unchanged, one queued event is consumed, and the only requests are the two
`XSync`, the `XQueryPointer` and the `XCheckIfEvent` of the filter, so nothing
is sent. A press, and a release for which the queue holds no such press, is
handed to the state machine. -/
theorem repeat_release_is_dropped (c : Config) (s : Locals) (inp : Input) (ev : XKeyEvent)
    (hev : inp.ev = .xkey ev) :
    (ev.type = .KeyRelease →
      (∃ k, XEvent.xkey k ∈ inp.queue ∧ k.type = .KeyPress ∧ k.keycode = ev.keycode ∧
        k.time = ev.time) →
      ∃ s1 rest calls, loop_body c s inp = some (s1, rest, calls) ∧
        s1.state = s.state ∧ s1.trigger_keycode = s.trigger_keycode ∧ s1.fw = s.fw ∧
        s1.revert_to = s.revert_to ∧ s1.stacking_order = s.stacking_order ∧
        s1.trigger_event = s.trigger_event ∧
        calls = [.XSync, .XQueryPointer c.rw, .XSync, .XCheckIfEvent] ∧ sent calls = [] ∧
        rest.length + 1 = inp.queue.length) ∧
    (ev.type = .KeyPress →
      loop_body c s inp =
        (step c s inp.replies ev).map (fun x => (x.1, inp.queue, x.2))) ∧
    (ev.type = .KeyRelease →
      (¬∃ k, XEvent.xkey k ∈ inp.queue ∧ k.type = .KeyPress ∧ k.keycode = ev.keycode ∧
        k.time = ev.time) →
      loop_body c s inp =
        (step c { s with modifiers := inp.mask } inp.replies ev).map
          (fun x => (x.1, inp.queue, filter_calls c ++ x.2))) := by
  refine ⟨fun hty hq => ?_, fun hty => ?_, fun hty hq => ?_⟩
  · obtain ⟨found, rest, h1, -, -, h4⟩ :=
      XCheckIfEvent_of_mem (predicate ev) inp.queue ((exists_predicate_iff ev inp.queue).mpr hq)
    refine ⟨{ s with modifiers := inp.mask }, rest, filter_calls c, ?_, rfl, rfl, rfl, rfl, rfl,
      rfl, rfl, rfl, h4⟩
    simp [loop_body, hev, hty, h1]
  · simp only [loop_body, hev, hty]
    cases step c s inp.replies ev <;> rfl
  · have h1 := XCheckIfEvent_of_not_mem (predicate ev) inp.queue
      (fun h => hq ((exists_predicate_iff ev inp.queue).mp h))
    simp only [loop_body, hev, hty, h1]
    cases step c { s with modifiers := inp.mask } inp.replies ev <;> rfl

/-- Witness for `repeat_release_is_dropped`: in `magic_key_held` with trigger
38, the release of 38 at time 160 with a press of 38 at time 160 queued; the
press of 40; and the release of 38 with only a later press queued. -/
theorem repeat_release_is_dropped_witness :
    (∃ s1 rest calls,
      loop_body ⟨1, 7, 8, .discard_never⟩
        ⟨.magic_key_held, some 38, some 5, some 1, none, none, 0⟩
        ⟨.xkey ⟨.KeyRelease, 1, 0, 160, 0, 38⟩,
          [.other 12, .xkey ⟨.KeyPress, 1, 0, 160, 0, 38⟩], 16, ⟨none, 8, 0⟩⟩ =
        some (s1, rest, calls) ∧
      s1.state = .magic_key_held ∧ s1.trigger_keycode = some 38 ∧ s1.fw = some 5 ∧
      s1.revert_to = some 1 ∧ s1.stacking_order = none ∧ s1.trigger_event = none ∧
      calls = [.XSync, .XQueryPointer 1, .XSync, .XCheckIfEvent] ∧ sent calls = [] ∧
      rest.length + 1 = 2) ∧
    loop_body ⟨1, 7, 8, .discard_never⟩
        ⟨.magic_key_held, some 38, some 5, some 1, none, none, 0⟩
        ⟨.xkey ⟨.KeyPress, 1, 0, 120, 0, 40⟩, [], 16, ⟨none, 8, 0⟩⟩ =
      (step ⟨1, 7, 8, .discard_never⟩
        ⟨.magic_key_held, some 38, some 5, some 1, none, none, 0⟩ ⟨none, 8, 0⟩
        ⟨.KeyPress, 1, 0, 120, 0, 40⟩).map (fun x => (x.1, [], x.2)) ∧
    loop_body ⟨1, 7, 8, .discard_never⟩
        ⟨.magic_key_held, some 38, some 5, some 1, none, none, 0⟩
        ⟨.xkey ⟨.KeyRelease, 1, 0, 160, 0, 38⟩,
          [.xkey ⟨.KeyPress, 1, 0, 190, 0, 38⟩], 16, ⟨none, 8, 0⟩⟩ =
      (step ⟨1, 7, 8, .discard_never⟩
        ⟨.magic_key_held, some 38, some 5, some 1, none, none, 16⟩ ⟨none, 8, 0⟩
        ⟨.KeyRelease, 1, 0, 160, 0, 38⟩).map
        (fun x => (x.1, [.xkey ⟨.KeyPress, 1, 0, 190, 0, 38⟩],
          filter_calls ⟨1, 7, 8, .discard_never⟩ ++ x.2)) :=
  ⟨(repeat_release_is_dropped ⟨1, 7, 8, .discard_never⟩
      ⟨.magic_key_held, some 38, some 5, some 1, none, none, 0⟩
      ⟨.xkey ⟨.KeyRelease, 1, 0, 160, 0, 38⟩,
        [.other 12, .xkey ⟨.KeyPress, 1, 0, 160, 0, 38⟩], 16, ⟨none, 8, 0⟩⟩
      ⟨.KeyRelease, 1, 0, 160, 0, 38⟩ rfl).1 rfl
      ⟨⟨.KeyPress, 1, 0, 160, 0, 38⟩, by decide, rfl, rfl, rfl⟩,
    (repeat_release_is_dropped ⟨1, 7, 8, .discard_never⟩
      ⟨.magic_key_held, some 38, some 5, some 1, none, none, 0⟩
      ⟨.xkey ⟨.KeyPress, 1, 0, 120, 0, 40⟩, [], 16, ⟨none, 8, 0⟩⟩
      ⟨.KeyPress, 1, 0, 120, 0, 40⟩ rfl).2.1 rfl,
    (repeat_release_is_dropped ⟨1, 7, 8, .discard_never⟩
      ⟨.magic_key_held, some 38, some 5, some 1, none, none, 0⟩
      ⟨.xkey ⟨.KeyRelease, 1, 0, 160, 0, 38⟩,
        [.xkey ⟨.KeyPress, 1, 0, 190, 0, 38⟩], 16, ⟨none, 8, 0⟩⟩
      ⟨.KeyRelease, 1, 0, 160, 0, 38⟩ rfl).2.2 rfl (by simp)⟩

/-! ## Leftovers of an earlier cycle are never read -/

/-- On locals that agree, a step issues the same requests and leads to locals
that agree. -/
theorem step_agree (c : Config) (s t s1 : Locals) (r : Replies) (ev : XKeyEvent)
    (calls : List Call) (hag : Agree c s t) (h : step c s r ev = some (s1, calls)) :
    ∃ t1, step c t r ev = some (t1, calls) ∧ Agree c s1 t1 := by
  obtain ⟨pre, do_send, hsw, rfl⟩ := step_eq_some c s s1 r ev calls h
  obtain ⟨hst, hsaved⟩ := hag
  rcases switch_state_cases c s s1 r ev pre do_send hsw with
    ⟨hs, hty, rfl, rfl, rfl⟩ | ⟨hs, hty, rfl, rfl, rfl⟩ | ⟨hs, hty, htk, rfl, rfl, rfl⟩ |
    ⟨hs, hty, ⟨tk, htk, hk⟩, rfl, rfl, rfl⟩ | ⟨hs, hty, htk, rfl, hpre⟩ |
    ⟨hs, hty, ⟨tk, htk, hk⟩, rfl, rfl, rfl⟩ | ⟨hs, hev, rfl, rfl, rfl⟩ |
    ⟨hs, hty, htk, rfl, rfl, fw, revert_to, hfw, hrv, rfl⟩
  · obtain ⟨t1, h1, e1, e2, e3, e4, e5, e6, -⟩ := step_press_idle c t r ev (hst ▸ hs) hty
    refine ⟨t1, h1, ?_, fun _ => ⟨?_, ?_, ?_, ?_, fun hd => ?_⟩⟩
    · rw [e1]
    · rw [e2]
    · rw [e3]
    · rw [e4]
    · rw [e5]
    · rw [e6]; simp [hd]
  · exact ⟨t, by simpa [send_block] using step_release_idle c t r ev (hst ▸ hs) hty,
      hst, hsaved⟩
  · obtain ⟨a1, -⟩ := hsaved (by rw [hs]; decide)
    exact ⟨t, by simpa [send_block] using
      step_press_held_trigger c t r ev (hst ▸ hs) hty (a1 ▸ htk), hst, hsaved⟩
  · obtain ⟨a1, a2, a3, a4, a5⟩ := hsaved (by rw [hs]; decide)
    have ht := step_press_held_other c t r ev tk (hst ▸ hs) hty (a1 ▸ htk) hk
    exact ⟨{ t with state := .as_modifier }, (by simpa [send_block] using ht),
      rfl, fun _ => ⟨a1, a2, a3, a4, a5⟩⟩
  · obtain ⟨a1, -, -, -, a5⟩ := hsaved (by rw [hs]; decide)
    have ht := step_release_held c t r ev (hst ▸ hs) hty (a1 ▸ htk)
    refine ⟨{ t with state := .forward_some_keys }, ?_, rfl, fun hc => absurd rfl hc⟩
    rcases hpre with ⟨hd, rfl, rfl⟩ | ⟨hd, rfl, te, hte, rfl⟩ | ⟨hd, rfl, rfl⟩
    · simpa [hd, send_block] using ht
    · have hte2 : t.trigger_event = some te := (a5 hd) ▸ hte
      simpa [hd, hte2, send_block] using ht
    · simpa [hd, send_block] using ht
  · obtain ⟨a1, a2, a3, a4, a5⟩ := hsaved (by rw [hs]; decide)
    have ht := step_release_held_other c t r ev tk (hst ▸ hs) hty (a1 ▸ htk) hk
    exact ⟨{ t with state := .as_modifier }, (by simpa [send_block] using ht),
      rfl, fun _ => ⟨a1, a2, a3, a4, a5⟩⟩
  · obtain ⟨a1, -⟩ := hsaved (by rw [hs]; decide)
    rcases hev with hty | ⟨hty, tk, htk, hk⟩
    · refine ⟨t, ?_, hst, hsaved⟩
      simp [step, switch_state, ← hst, hs, hty]
    · exact ⟨t, by simpa [send_block] using
        step_modifier_other c t r ev tk (hst ▸ hs) (a1 ▸ htk) (fun hh => hk hh.2),
        hst, hsaved⟩
  · obtain ⟨a1, a2, a3, a4, -⟩ := hsaved (by rw [hs]; decide)
    refine ⟨{ t with state := .forward_some_keys }, ?_, rfl, fun hc => absurd rfl hc⟩
    have ht := step_release_modifier c t r ev fw revert_to (hst ▸ hs) hty (a1 ▸ htk)
      (a2 ▸ hfw) (a3 ▸ hrv)
    have hm : (match t.stacking_order with
        | some a => [Call.XRestackWindows a]
        | none => []) =
        (match s.stacking_order with
        | some a => [Call.XRestackWindows a]
        | none => []) := by rw [a4]
    rw [hm] at ht
    simpa [send_block] using ht

theorem loop_body_agree (c : Config) (s t s1 : Locals) (inp : Input) (queue : List XEvent)
    (calls : List Call) (hag : Agree c s t)
    (h : loop_body c s inp = some (s1, queue, calls)) :
    ∃ t1, loop_body c t inp = some (t1, queue, calls) ∧ Agree c s1 t1 := by
  cases hev : inp.ev with
  | other n =>
    simp only [loop_body, hev, Option.some.injEq, Prod.mk.injEq] at h ⊢
    obtain ⟨rfl, rfl, rfl⟩ := h
    exact ⟨t, ⟨rfl, rfl, rfl⟩, hag⟩
  | xkey ev =>
    cases hty : ev.type with
    | KeyPress =>
      simp only [loop_body, hev, hty] at h ⊢
      cases hstep : step c s inp.replies ev with
      | none => simp [hstep] at h
      | some x =>
        obtain ⟨s2, calls2⟩ := x
        simp only [hstep, Option.some.injEq, Prod.mk.injEq] at h
        obtain ⟨rfl, rfl, rfl⟩ := h
        obtain ⟨t1, ht1, hag1⟩ := step_agree c s t s2 inp.replies ev calls2 hag hstep
        exact ⟨t1, by simp only [ht1], hag1⟩
    | KeyRelease =>
      simp only [loop_body, hev, hty] at h ⊢
      cases hx : XCheckIfEvent (predicate ev) inp.queue with
      | some found =>
        simp only [hx, Option.some.injEq, Prod.mk.injEq] at h ⊢
        obtain ⟨rfl, rfl, rfl⟩ := h
        exact ⟨{ t with modifiers := inp.mask }, ⟨rfl, rfl, rfl⟩, hag⟩
      | none =>
        simp only [hx] at h ⊢
        cases hstep : step c { s with modifiers := inp.mask } inp.replies ev with
        | none => simp [hstep] at h
        | some x =>
          obtain ⟨s2, calls2⟩ := x
          simp only [hstep, Option.some.injEq, Prod.mk.injEq] at h
          obtain ⟨rfl, rfl, rfl⟩ := h
          obtain ⟨t1, ht1, hag1⟩ := step_agree c { s with modifiers := inp.mask }
            { t with modifiers := inp.mask } s2 inp.replies ev calls2 hag hstep
          exact ⟨t1, by simp only [ht1], hag1⟩

/-- On locals that agree, the event loop issues the same requests for the same
inputs, and ends in locals that agree. -/
theorem main_loop_agree (c : Config) (ins : List Input) :
    ∀ (s t s1 : Locals) (calls : List Call), Agree c s t →
      main_loop c s ins = some (s1, calls) →
      ∃ t1, main_loop c t ins = some (t1, calls) ∧ Agree c s1 t1 := by
  induction ins with
  | nil =>
    intro s t s1 calls hag h
    simp only [main_loop, Option.some.injEq, Prod.mk.injEq] at h
    obtain ⟨rfl, rfl⟩ := h
    exact ⟨t, rfl, hag⟩
  | cons inp rest ih =>
    intro s t s1 calls hag h
    simp only [main_loop] at h
    cases hb : loop_body c s inp with
    | none => simp [hb] at h
    | some x =>
      obtain ⟨s2, queue, calls2⟩ := x
      simp only [hb] at h
      cases hr : main_loop c s2 rest with
      | none => simp [hr] at h
      | some y =>
        obtain ⟨s3, calls3⟩ := y
        simp only [hr, Option.some.injEq, Prod.mk.injEq] at h
        obtain ⟨rfl, rfl⟩ := h
        obtain ⟨t2, hb2, hag2⟩ := loop_body_agree c s t s2 inp queue calls2 hag hb
        obtain ⟨t3, hr3, hag3⟩ := ih s2 t2 s3 calls3 hag2 hr
        exact ⟨t3, by simp only [main_loop, hb2, hr3], hag3⟩

/-- C10. Idempotence of cycles. Under every discard policy, if a sequence of
loop inputs (events together with the replies of the server) takes the event
loop from `forward_some_keys` back to `forward_some_keys`, then running the
same inputs again from the locals it ended in issues exactly the same
requests, hence the same synthetic events and the same focus and restack
commands, and again ends in `forward_some_keys`. More generally the requests
are the same from any locals in `forward_some_keys`: they do not depend on the
trigger key-code, saved focus, saved stacking order or retained event left
over from an earlier cycle. -/
theorem cycle_output_independent_of_leftovers (c : Config) (s s1 : Locals)
    (ins : List Input) (calls : List Call) (hs : s.state = .forward_some_keys)
    (hrun : main_loop c s ins = some (s1, calls)) (hs1 : s1.state = .forward_some_keys) :
    (∃ s2 calls2, main_loop c s1 ins = some (s2, calls2) ∧ calls2 = calls ∧
      sent calls2 = sent calls ∧ s2.state = .forward_some_keys) ∧
    ∀ t : Locals, t.state = .forward_some_keys →
      ∃ t1, main_loop c t ins = some (t1, calls) ∧ t1.state = .forward_some_keys := by
  have key : ∀ t : Locals, t.state = .forward_some_keys →
      ∃ t1, main_loop c t ins = some (t1, calls) ∧ t1.state = .forward_some_keys := by
    intro t ht
    have hag : Agree c s t := ⟨hs.trans ht.symm, fun hn => absurd hs hn⟩
    obtain ⟨t1, h1, hag1⟩ := main_loop_agree c ins s t s1 calls hag hrun
    exact ⟨t1, h1, hag1.1 ▸ hs1⟩
  obtain ⟨s2, h2, hs2⟩ := key s1 hs1
  exact ⟨⟨s2, calls, h2, rfl, rfl, hs2⟩, key⟩

/-- Witness for `cycle_output_independent_of_leftovers`: under
`discard_modifier`, the cycle press 38, press 40, release 40, release 38 run
from the initial locals. -/
theorem cycle_output_independent_of_leftovers_witness :
    (∃ s2 calls2,
      main_loop ⟨1, 7, 8, .discard_modifier⟩
        ⟨.forward_some_keys, some 38, some 5, some 1, some [5, 7, 3],
          some ⟨.KeyPress, 1, 0, 100, 0, 38⟩, 16⟩
        [⟨.xkey ⟨.KeyPress, 1, 0, 100, 0, 38⟩, [], 16, ⟨some [3, 7, 5], 5, 1⟩⟩,
          ⟨.xkey ⟨.KeyPress, 1, 0, 120, 0, 40⟩, [], 16, ⟨none, 8, 0⟩⟩,
          ⟨.xkey ⟨.KeyRelease, 1, 0, 140, 0, 40⟩, [], 16, ⟨none, 8, 0⟩⟩,
          ⟨.xkey ⟨.KeyRelease, 1, 0, 160, 0, 38⟩, [], 16, ⟨none, 8, 0⟩⟩] =
        some (s2, calls2) ∧
      calls2 =
        [.XGrabKeyboard 1, .XQueryTree 1, .XRaiseWindow 7, .XGetInputFocus,
          .XSetInputFocus 8 RevertToNone,
          .XSendEvent 7 ⟨.KeyPress, 7, 8, 120, 0, 40⟩,
          .XSync, .XQueryPointer 1, .XSync, .XCheckIfEvent,
          .XSendEvent 7 ⟨.KeyRelease, 7, 8, 140, 0, 40⟩,
          .XSync, .XQueryPointer 1, .XSync, .XCheckIfEvent,
          .XSetInputFocus 5 1, .XRestackWindows [5, 7, 3], .XUngrabKeyboard,
          .XSendEvent 7 ⟨.KeyRelease, 7, 8, 160, 0, 38⟩] ∧
      sent calls2 =
        sent [.XGrabKeyboard 1, .XQueryTree 1, .XRaiseWindow 7, .XGetInputFocus,
          .XSetInputFocus 8 RevertToNone,
          .XSendEvent 7 ⟨.KeyPress, 7, 8, 120, 0, 40⟩,
          .XSync, .XQueryPointer 1, .XSync, .XCheckIfEvent,
          .XSendEvent 7 ⟨.KeyRelease, 7, 8, 140, 0, 40⟩,
          .XSync, .XQueryPointer 1, .XSync, .XCheckIfEvent,
          .XSetInputFocus 5 1, .XRestackWindows [5, 7, 3], .XUngrabKeyboard,
          .XSendEvent 7 ⟨.KeyRelease, 7, 8, 160, 0, 38⟩] ∧
      s2.state = .forward_some_keys) ∧
    ∀ t : Locals, t.state = .forward_some_keys →
      ∃ t1,
        main_loop ⟨1, 7, 8, .discard_modifier⟩ t
          [⟨.xkey ⟨.KeyPress, 1, 0, 100, 0, 38⟩, [], 16, ⟨some [3, 7, 5], 5, 1⟩⟩,
            ⟨.xkey ⟨.KeyPress, 1, 0, 120, 0, 40⟩, [], 16, ⟨none, 8, 0⟩⟩,
            ⟨.xkey ⟨.KeyRelease, 1, 0, 140, 0, 40⟩, [], 16, ⟨none, 8, 0⟩⟩,
            ⟨.xkey ⟨.KeyRelease, 1, 0, 160, 0, 38⟩, [], 16, ⟨none, 8, 0⟩⟩] =
          some (t1,
            [.XGrabKeyboard 1, .XQueryTree 1, .XRaiseWindow 7, .XGetInputFocus,
              .XSetInputFocus 8 RevertToNone,
              .XSendEvent 7 ⟨.KeyPress, 7, 8, 120, 0, 40⟩,
              .XSync, .XQueryPointer 1, .XSync, .XCheckIfEvent,
              .XSendEvent 7 ⟨.KeyRelease, 7, 8, 140, 0, 40⟩,
              .XSync, .XQueryPointer 1, .XSync, .XCheckIfEvent,
              .XSetInputFocus 5 1, .XRestackWindows [5, 7, 3], .XUngrabKeyboard,
              .XSendEvent 7 ⟨.KeyRelease, 7, 8, 160, 0, 38⟩]) ∧
        t1.state = .forward_some_keys :=
  cycle_output_independent_of_leftovers ⟨1, 7, 8, .discard_modifier⟩ (Locals.initial 0)
    ⟨.forward_some_keys, some 38, some 5, some 1, some [5, 7, 3],
      some ⟨.KeyPress, 1, 0, 100, 0, 38⟩, 16⟩
    [⟨.xkey ⟨.KeyPress, 1, 0, 100, 0, 38⟩, [], 16, ⟨some [3, 7, 5], 5, 1⟩⟩,
      ⟨.xkey ⟨.KeyPress, 1, 0, 120, 0, 40⟩, [], 16, ⟨none, 8, 0⟩⟩,
      ⟨.xkey ⟨.KeyRelease, 1, 0, 140, 0, 40⟩, [], 16, ⟨none, 8, 0⟩⟩,
      ⟨.xkey ⟨.KeyRelease, 1, 0, 160, 0, 38⟩, [], 16, ⟨none, 8, 0⟩⟩]
    [.XGrabKeyboard 1, .XQueryTree 1, .XRaiseWindow 7, .XGetInputFocus,
      .XSetInputFocus 8 RevertToNone,
      .XSendEvent 7 ⟨.KeyPress, 7, 8, 120, 0, 40⟩,
      .XSync, .XQueryPointer 1, .XSync, .XCheckIfEvent,
      .XSendEvent 7 ⟨.KeyRelease, 7, 8, 140, 0, 40⟩,
      .XSync, .XQueryPointer 1, .XSync, .XCheckIfEvent,
      .XSetInputFocus 5 1, .XRestackWindows [5, 7, 3], .XUngrabKeyboard,
      .XSendEvent 7 ⟨.KeyRelease, 7, 8, 160, 0, 38⟩]
    rfl rfl rfl

/-! ## The replay of the retained press -/

/-- Under `discard_modifier` the release of the trigger in `magic_key_held`
sends the retained press exactly as it was received, then ungrabs, then
forwards the release. -/
theorem modifier_replay_is_verbatim (c : Config) (s : Locals) (r1 r2 : Replies)
    (p q : XKeyEvent) (hd : c.discard = .discard_modifier)
    (hs : s.state = .forward_some_keys) (hp : p.type = .KeyPress)
    (hq : q.type = .KeyRelease) (hk : q.keycode = p.keycode) :
    ∃ s1 calls1 s2,
      step c s r1 p = some (s1, calls1) ∧
      step c s1 r2 q = some (s2,
        [.XSendEvent c.w p, .XUngrabKeyboard, .XSendEvent c.w (forwarded c q)]) := by
  obtain ⟨s1, h1, hs1, ht1, -, -, -, he1, -⟩ := step_press_idle c s r1 p hs hp
  have h2 := step_release_held c s1 r2 q hs1 hq (by rw [ht1, hk])
  simp only [hd, if_true] at h2 he1
  simp only [he1] at h2
  exact ⟨_, _, _, h1, h2⟩

/-- C11, evaluated on the code. Policy `discard_modifier`, target window 7 and
subwindow 8; the press of key-code 38 is reported on the root window 1 with
subwindow 0. On the release the retained press is sent to window 7, but the
event itself still names window 1 and subwindow 0, whereas the release that
follows it names window 7 and subwindow 8. -/
theorem modifier_replay_keeps_grab_window_fields :
    ∃ s1 calls1 s2 replayed,
      step ⟨1, 7, 8, .discard_modifier⟩ (Locals.initial 0) ⟨some [3, 7, 5], 5, 1⟩
        ⟨.KeyPress, 1, 0, 100, 0, 38⟩ = some (s1, calls1) ∧
      step ⟨1, 7, 8, .discard_modifier⟩ s1 ⟨none, 8, 0⟩ ⟨.KeyRelease, 1, 0, 160, 0, 38⟩ =
        some (s2, [.XSendEvent 7 replayed, .XUngrabKeyboard,
          .XSendEvent 7 ⟨.KeyRelease, 7, 8, 160, 0, 38⟩]) ∧
      replayed = ⟨.KeyPress, 1, 0, 100, 0, 38⟩ ∧
      replayed.window = 1 ∧ replayed.subwindow = 0 ∧
      replayed.window ≠ 7 ∧ replayed.subwindow ≠ 8 :=
  ⟨_, _, _, _, rfl, rfl, rfl, rfl, rfl, by decide, by decide⟩

/-! ## Startup -/

/-- With at least one argument after the subwindow id the `strcmp` chain is
defined: a first argument that is one of the three flags selects the policy and
is skipped; any other first argument leaves the policy at `discard_never` and
stays in the list. Only the first argument is looked at, so a flag further
along stays in the list of names. -/
theorem parse_discard_cons (arg0 : String) (rest : List String) :
    parse_discard (arg0 :: rest) =
      some (if arg0 = "--discard=always" then (.discard_always, rest)
        else if arg0 = "--discard=modifier" then (.discard_modifier, rest)
        else if arg0 = "--discard=never" then (.discard_never, rest)
        else (.discard_never, arg0 :: rest)) := by
  simp only [parse_discard]
  split_ifs <;> rfl

/-- C12, evaluated on the code. With the two window ids and nothing after
them, `arg[0]` is the `NULL` that ends `argv`, and the first `strcmp` of the
discard-flag chain reads it: startup is undefined, it does not continue with
the policy `discard_never` and an empty list of names. -/
theorem discard_parsing_without_names_is_undefined :
    parse_discard [] = none ∧
    main_startup ⟨true, 1, 0, fun _ => 7, fun _ => 0, fun _ => []⟩
      ["forward-x-keys", "7", "8"] = .undefined :=
  ⟨rfl, rfl⟩

theorem grabs_for_append (env : Environment) (rw : Window) (modifiers : Nat)
    (a b : List String) :
    grabs_for env rw modifiers (a ++ b) =
      grabs_for env rw modifiers a ++ grabs_for env rw modifiers b := by
  induction a with
  | nil => rfl
  | cons x rest ih => simp [grabs_for, ih]

/-- When every name has a key symbol the loop runs to its end and issues the
requests for every name in order. -/
theorem grab_loop_all_resolve (env : Environment) (rw : Window) (modifiers : Nat)
    (names : List String) (h : ∀ n ∈ names, env.XStringToKeysym n ≠ NoSymbol) :
    grab_loop env rw modifiers names = (grabs_for env rw modifiers names, true) := by
  induction names with
  | nil => rfl
  | cons x rest ih =>
    have hx := h x (List.mem_cons_self _ _)
    have hrest := ih (fun n hn => h n (List.mem_cons_of_mem _ hn))
    simp [grab_loop, grabxkey, hx, hrest, grabs_for]

/-- The loop stops at the first name without a key symbol, after the requests
for the names before it. -/
theorem grab_loop_first_failure (env : Environment) (rw : Window) (modifiers : Nat)
    (pre post : List String) (bad : String)
    (hpre : ∀ n ∈ pre, env.XStringToKeysym n ≠ NoSymbol)
    (hbad : env.XStringToKeysym bad = NoSymbol) :
    grab_loop env rw modifiers (pre ++ bad :: post) = (grabs_for env rw modifiers pre, false) := by
  induction pre with
  | nil => simp [grab_loop, grabxkey, hbad, grabs_for]
  | cons x rest ih =>
    have hx := hpre x (List.mem_cons_self _ _)
    have hrest := ih (fun n hn => hpre n (List.mem_cons_of_mem _ hn))
    simp [grab_loop, grabxkey, hx, hrest, grabs_for]

theorem exists_first_unresolved (env : Environment) (names : List String)
    (h : ∃ n ∈ names, env.XStringToKeysym n = NoSymbol) :
    ∃ pre bad post, names = pre ++ bad :: post ∧
      (∀ n ∈ pre, env.XStringToKeysym n ≠ NoSymbol) ∧ env.XStringToKeysym bad = NoSymbol := by
  induction names with
  | nil =>
    obtain ⟨n, hn, -⟩ := h
    exact absurd hn (List.not_mem_nil n)
  | cons x rest ih =>
    by_cases hx : env.XStringToKeysym x = NoSymbol
    · exact ⟨[], x, rest, rfl, fun n hn => absurd hn (List.not_mem_nil n), hx⟩
    · obtain ⟨n, hn, hbad⟩ := h
      have hin : n ∈ rest := by
        rcases List.mem_cons.mp hn with rfl | h2
        · exact absurd hbad hx
        · exact h2
      obtain ⟨pre, bad, post, e, hpre, hb⟩ := ih ⟨n, hin, hbad⟩
      refine ⟨x :: pre, bad, post, by rw [e]; rfl, ?_, hb⟩
      intro m hm
      rcases List.mem_cons.mp hm with rfl | h2
      · exact hx
      · exact hpre m h2

theorem grabs_for_fields (env : Environment) (rw : Window) (modifiers : Nat)
    (names : List String) :
    ∀ g ∈ grabs_for env rw modifiers names, g.modifiers = modifiers ∧ g.grab_window = rw := by
  induction names with
  | nil => intro g hg; exact absurd hg (List.not_mem_nil g)
  | cons x rest ih =>
    intro g hg
    simp only [grabs_for, List.mem_append, List.mem_map] at hg
    rcases hg with ⟨k, -, rfl⟩ | hg
    · exact ⟨rfl, rfl⟩
    · exact ih g hg

/-- C13, as stated, fails. The names are `F20`, which has a key symbol with
the one key-code 96, and `nokey`, which has none. Startup ends with
`exit(1)`, but the `XGrabKey` request for key-code 96 has already been issued
by then. -/
theorem startup_failure_after_partial_grab :
    main_startup
      ⟨true, 1, 16, fun _ => 7, fun name => if name = "F20" then 65489 else 0,
        fun keysym => if keysym = 65489 then [96] else []⟩
      ["forward-x-keys", "7", "8", "F20", "nokey"] = .exit 1 [⟨96, 16, 1⟩] ∧
    [(⟨96, 16, 1⟩ : GrabKey)] ≠ [] := by
  refine ⟨?_, by decide⟩
  simp [main_startup, parse_discard, grab_loop, grabxkey, NoSymbol]

/-- C13, amended. With a display and a defined discard-flag block that leaves
the list `names`: if some name has no key symbol, startup ends with `exit(1)`
and never enters the event loop, and the `XGrabKey` requests issued before the
exit are exactly those for the names that precede the first such name
(none for that name or any later one); if every name has a key symbol, the
event loop is entered after one `XGrabKey` request for each key-code of each
name, in list order. Every request is on the root window with the modifier
mask read at startup. -/
theorem startup_grabs_until_first_unresolved (env : Environment)
    (argv0 argv1 argv2 : String) (arg names : List String) (discard : Discard)
    (hdisplay : env.display = true) (hparse : parse_discard arg = some (discard, names)) :
    ((∃ n ∈ names, env.XStringToKeysym n = NoSymbol) →
      ∃ pre bad post, names = pre ++ bad :: post ∧
        (∀ n ∈ pre, env.XStringToKeysym n ≠ NoSymbol) ∧ env.XStringToKeysym bad = NoSymbol ∧
        main_startup env (argv0 :: argv1 :: argv2 :: arg) =
          .exit 1 (grabs_for env env.root env.pointer_mask pre)) ∧
    ((∀ n ∈ names, env.XStringToKeysym n ≠ NoSymbol) →
      main_startup env (argv0 :: argv1 :: argv2 :: arg) =
        .event_loop ⟨env.root, env.strtoul argv1, env.strtoul argv2, discard⟩
          (Locals.initial env.pointer_mask) (grabs_for env env.root env.pointer_mask names)) ∧
    (∀ l, ∀ g ∈ grabs_for env env.root env.pointer_mask l,
      g.modifiers = env.pointer_mask ∧ g.grab_window = env.root) := by
  refine ⟨fun h => ?_, fun h => ?_, fun l => grabs_for_fields env _ _ l⟩
  · obtain ⟨pre, bad, post, e, hpre, hbad⟩ := exists_first_unresolved env names h
    refine ⟨pre, bad, post, e, hpre, hbad, ?_⟩
    simp only [main_startup, hdisplay, if_true, hparse, e,
      grab_loop_first_failure env _ _ pre post bad hpre hbad]
  · simp only [main_startup, hdisplay, if_true, hparse,
      grab_loop_all_resolve env _ _ names h]

/-- Witness for `startup_grabs_until_first_unresolved`: with the flag
`--discard=always`, the names `F20`, `nokey`, `F21` (the second has no key
symbol), and the names `F20`, `F21`. -/
theorem startup_grabs_until_first_unresolved_witness :
    (∃ pre bad post, ["F20", "nokey", "F21"] = pre ++ bad :: post ∧
      (∀ n ∈ pre, sample_environment.XStringToKeysym n ≠ NoSymbol) ∧
      sample_environment.XStringToKeysym bad = NoSymbol ∧
      main_startup sample_environment
          ("forward-x-keys" :: "7" :: "8" :: ["--discard=always", "F20", "nokey", "F21"]) =
        .exit 1 (grabs_for sample_environment sample_environment.root
          sample_environment.pointer_mask pre)) ∧
    main_startup sample_environment
        ("forward-x-keys" :: "7" :: "8" :: ["--discard=always", "F20", "F21"]) =
      .event_loop ⟨sample_environment.root, sample_environment.strtoul "7",
          sample_environment.strtoul "8", .discard_always⟩
        (Locals.initial sample_environment.pointer_mask)
        (grabs_for sample_environment sample_environment.root
          sample_environment.pointer_mask ["F20", "F21"]) :=
  ⟨(startup_grabs_until_first_unresolved sample_environment "forward-x-keys" "7" "8"
      ["--discard=always", "F20", "nokey", "F21"] ["F20", "nokey", "F21"] .discard_always
      rfl (by simp [parse_discard])).1
      ⟨"nokey", by simp, by simp [sample_environment, NoSymbol]⟩,
    (startup_grabs_until_first_unresolved sample_environment "forward-x-keys" "7" "8"
      ["--discard=always", "F20", "F21"] ["F20", "F21"] .discard_always
      rfl (by simp [parse_discard])).2.1
      (by simp [sample_environment, NoSymbol])⟩

/-! ## `reverse_array` -/

/-- An iteration of the loop of `reverse_array` is defined only when both
indices it touches are inside the array, and it keeps the length. -/
theorem reverse_array_body_in_bounds (n : Nat) (array a : List Window) (i : Nat)
    (h : reverse_array_body n array i = some a) :
    n - i - 1 < array.length ∧ i < array.length ∧ a.length = array.length := by
  unfold reverse_array_body at h
  split at h
  · rename_i tmp x h1 h2
    simp only [Option.some.injEq] at h
    subst h
    have b1 := (List.getElem?_eq_some_iff.mp h1).1
    have b2 := (List.getElem?_eq_some_iff.mp h2).1
    exact ⟨b1, b2, by simp⟩
  · exact absurd h (by simp)

/-- C14. `reverse_array` is sequence reversal. Called on an array with its
length `n` (any `n`, including 0, 1 and odd values), it is defined, which in
this model means that every index the loop reads or writes is inside the
array, hence below `n`; the length is unchanged; the element at index `i` is
the element that was at index `n-1-i`, for every `i < n`; and applying it a
second time gives back the original array. -/
theorem reverse_array_reverses_in_place (l : List Window) :
    ∃ a, reverse_array l l.length = some a ∧ a.length = l.length ∧
      (∀ i, i < l.length → a[i]? = l[l.length - 1 - i]?) ∧
      reverse_array a a.length = some l ∧
      (∀ (array b : List Window) (i : Nat), reverse_array_body l.length array i = some b →
        l.length - i - 1 < array.length ∧ i < array.length ∧ b.length = array.length) := by
  refine ⟨l.reverse, reverse_array_eq_reverse l, List.length_reverse l, ?_, ?_,
    fun array b i h => reverse_array_body_in_bounds l.length array b i h⟩
  · intro i hi
    rw [List.getElem?_reverse hi]
  · have h := reverse_array_eq_reverse l.reverse
    rw [List.reverse_reverse] at h
    exact h

/-! ## The press that leaves `forward_some_keys` -/

/-- C15. On a press in `forward_some_keys`, run against the server, the
requests are, in this order, `XGrabKeyboard` on the root, `XQueryTree` on the
root, `XRaiseWindow` on the target window, `XGetInputFocus`, and
`XSetInputFocus` on the target subwindow, followed by the forwarded press
exactly when the policy is `discard_never`. The server's answer at the moment
`XQueryTree` is issued (after the first request) is its stacking order before
the step, so the saved order is the reverse of the order before the raise; its
answer at the moment `XGetInputFocus` is issued (after the first three
requests) is the focus before the step, so the saved focus is the one before
focus moves to the target subwindow. -/
theorem press_in_idle_call_order (c : Config) (s : Locals) (x : XServer) (ev : XKeyEvent)
    (hs : s.state = .forward_some_keys) (hty : ev.type = .KeyPress) :
    ∃ s1 x1 calls, step_on c s x ev = some (s1, x1, calls) ∧
      calls = [.XGrabKeyboard c.rw, .XQueryTree c.rw, .XRaiseWindow c.w, .XGetInputFocus,
          .XSetInputFocus c.sw RevertToNone] ++
        (if c.discard = .discard_never then [.XSendEvent c.w (forwarded c ev)] else []) ∧
      (XServer.replies ((calls.take 1).foldl XServer.exec x)).children = x.replies.children ∧
      s1.stacking_order = x.replies.children.map List.reverse ∧
      (XServer.replies ((calls.take 3).foldl XServer.exec x)).focus = x.focus ∧
      (XServer.replies ((calls.take 3).foldl XServer.exec x)).revert_to = x.revert_to ∧
      s1.fw = some x.focus ∧ s1.revert_to = some x.revert_to ∧
      x1.focus = c.sw ∧ x1.stacking = raise_window c.w x.stacking ∧
      s1.state = .magic_key_held ∧ s1.trigger_keycode = some ev.keycode := by
  obtain ⟨s1, h1, hs1, ht1, hf1, hr1, hso1, -, -⟩ := step_press_idle c s x.replies ev hs hty
  refine ⟨s1, _, _, step_on_eq h1, ?_, ?_, hso1, ?_, ?_, hf1, hr1, ?_, ?_, hs1, ht1⟩
  · cases hd : c.discard <;> simp [send_block]
  · simp [XServer.exec, XServer.replies]
  · simp [XServer.exec, XServer.replies]
  · simp [XServer.exec, XServer.replies]
  · cases hd : c.discard <;> simp [send_block, XServer.exec]
  · cases hd : c.discard <;> simp [send_block, XServer.exec]

/-- Witness for `press_in_idle_call_order`: the press of key-code 38 with the
focus on window 5 and the root's children 3, 7, 5. -/
theorem press_in_idle_call_order_witness :
    ∃ s1 x1 calls,
      step_on ⟨1, 7, 8, .discard_never⟩ (Locals.initial 0) ⟨5, 1, [3, 7, 5], false⟩
        ⟨.KeyPress, 1, 0, 100, 0, 38⟩ = some (s1, x1, calls) ∧
      calls = [.XGrabKeyboard 1, .XQueryTree 1, .XRaiseWindow 7, .XGetInputFocus,
          .XSetInputFocus 8 RevertToNone] ++
        (if Discard.discard_never = .discard_never then
          [.XSendEvent 7 (forwarded ⟨1, 7, 8, .discard_never⟩ ⟨.KeyPress, 1, 0, 100, 0, 38⟩)]
        else []) ∧
      (XServer.replies ((calls.take 1).foldl XServer.exec ⟨5, 1, [3, 7, 5], false⟩)).children =
        (XServer.replies ⟨5, 1, [3, 7, 5], false⟩).children ∧
      s1.stacking_order = (XServer.replies ⟨5, 1, [3, 7, 5], false⟩).children.map List.reverse ∧
      (XServer.replies ((calls.take 3).foldl XServer.exec ⟨5, 1, [3, 7, 5], false⟩)).focus = 5 ∧
      (XServer.replies ((calls.take 3).foldl XServer.exec ⟨5, 1, [3, 7, 5], false⟩)).revert_to =
        1 ∧
      s1.fw = some 5 ∧ s1.revert_to = some 1 ∧
      x1.focus = 8 ∧ x1.stacking = raise_window 7 [3, 7, 5] ∧
      s1.state = .magic_key_held ∧ s1.trigger_keycode = some 38 :=
  press_in_idle_call_order ⟨1, 7, 8, .discard_never⟩ (Locals.initial 0)
    ⟨5, 1, [3, 7, 5], false⟩ ⟨.KeyPress, 1, 0, 100, 0, 38⟩ rfl rfl

/-! ## How many events a step sends -/

/-- Inversion of the loop body that keeps track of the event: either the
locals keep their state and saved variables, or the event is a key event that
reaches the state machine. -/
theorem loop_body_cases_event (c : Config) (s s1 : Locals) (inp : Input)
    (queue : List XEvent) (calls : List Call)
    (h : loop_body c s inp = some (s1, queue, calls)) :
    (s1.state = s.state ∧ s1.saved = s.saved) ∨
    ∃ ev s0 calls0, inp.ev = .xkey ev ∧ s0.state = s.state ∧ s0.saved = s.saved ∧
      step c s0 inp.replies ev = some (s1, calls0) := by
  cases hev : inp.ev with
  | other n =>
    simp only [loop_body, hev, Option.some.injEq, Prod.mk.injEq] at h
    obtain ⟨rfl, -, -⟩ := h
    exact Or.inl ⟨rfl, rfl⟩
  | xkey ev =>
    cases hty : ev.type with
    | KeyPress =>
      simp only [loop_body, hev, hty] at h
      cases hstep : step c s inp.replies ev with
      | none => simp [hstep] at h
      | some y =>
        obtain ⟨s2, calls2⟩ := y
        simp only [hstep, Option.some.injEq, Prod.mk.injEq] at h
        obtain ⟨rfl, -, -⟩ := h
        exact Or.inr ⟨ev, s, calls2, rfl, rfl, rfl, hstep⟩
    | KeyRelease =>
      simp only [loop_body, hev, hty] at h
      cases hx : XCheckIfEvent (predicate ev) inp.queue with
      | some found =>
        simp only [hx, Option.some.injEq, Prod.mk.injEq] at h
        obtain ⟨rfl, -, -⟩ := h
        exact Or.inl ⟨rfl, rfl⟩
      | none =>
        simp only [hx] at h
        cases hstep : step c { s with modifiers := inp.mask } inp.replies ev with
        | none => simp [hstep] at h
        | some y =>
          obtain ⟨s2, calls2⟩ := y
          simp only [hstep, Option.some.injEq, Prod.mk.injEq] at h
          obtain ⟨rfl, -, -⟩ := h
          exact Or.inr ⟨ev, { s with modifiers := inp.mask }, calls2, rfl, rfl, rfl, hstep⟩

/-- The saved variables are written by the press that leaves
`forward_some_keys`, and only by it: an iteration that stays outside
`forward_some_keys` leaves them as they are. -/
theorem loop_body_saved (c : Config) (s s1 : Locals) (inp : Input) (queue : List XEvent)
    (calls : List Call) (h : loop_body c s inp = some (s1, queue, calls)) :
    (s.state = .forward_some_keys → s1.state ≠ .forward_some_keys →
      ∃ ev, inp.ev = .xkey ev ∧ ev.type = .KeyPress ∧
        s1.trigger_keycode = some ev.keycode ∧ s1.fw = some inp.replies.focus ∧
        s1.revert_to = some inp.replies.revert_to ∧
        (c.discard = .discard_modifier → s1.trigger_event = some ev)) ∧
    (s.state ≠ .forward_some_keys → s1.state ≠ .forward_some_keys → s1.saved = s.saved) := by
  rcases loop_body_cases_event c s s1 inp queue calls h with
    ⟨hst, hsv⟩ | ⟨ev, s0, calls0, hev, hst, hsv, hstep⟩
  · exact ⟨fun hi hn => absurd (hst.trans hi) hn, fun _ _ => hsv⟩
  · obtain ⟨pre, do_send, hsw, -⟩ := step_eq_some c s0 s1 inp.replies ev calls0 hstep
    rcases switch_state_cases c s0 s1 inp.replies ev pre do_send hsw with
      ⟨h0, hty, rfl, -⟩ | ⟨h0, -, rfl, -⟩ | ⟨h0, -, -, rfl, -⟩ |
      ⟨h0, -, -, rfl, -⟩ | ⟨h0, -, -, rfl, -⟩ | ⟨h0, -, -, rfl, -⟩ |
      ⟨h0, -, rfl, -⟩ | ⟨h0, -, -, rfl, -⟩
    · refine ⟨fun _ _ => ⟨ev, hev, hty, rfl, rfl, rfl, fun hd => by simp [hd]⟩, fun hn _ => ?_⟩
      exact absurd (hst.symm.trans h0) hn
    · exact ⟨fun _ hn => absurd h0 hn, fun hn _ => absurd (hst.symm.trans h0) hn⟩
    · refine ⟨fun hi _ => ?_, fun _ _ => hsv⟩
      rw [← hst, h0] at hi
      exact absurd hi (by decide)
    · refine ⟨fun hi _ => ?_, fun _ _ => hsv⟩
      rw [← hst, h0] at hi
      exact absurd hi (by decide)
    · exact ⟨fun _ hn => absurd rfl hn, fun _ hn => absurd rfl hn⟩
    · refine ⟨fun hi _ => ?_, fun _ _ => hsv⟩
      rw [← hst, h0] at hi
      exact absurd hi (by decide)
    · refine ⟨fun hi _ => ?_, fun _ _ => hsv⟩
      rw [← hst, h0] at hi
      exact absurd hi (by decide)
    · exact ⟨fun _ hn => absurd rfl hn, fun _ hn => absurd rfl hn⟩

/-- C16. Validity of the locals. In every state the event loop can reach from
its initial state (in `forward_some_keys`, nothing saved): outside
`forward_some_keys` the trigger key-code and the saved focus (window and
revert mode) are assigned; in `magic_key_held` under `discard_modifier` the
retained event is assigned and is a press whose key-code is the trigger
key-code. These variables are assigned by the press that leaves
`forward_some_keys` and kept by every iteration that stays outside it. Hence
every iteration from a reachable state is defined: no variable is read before
it is assigned. -/
theorem saved_variables_assigned_when_read (c : Config) (s : Locals) (captured : Bool)
    (h : Reachable c s captured) :
    (s.state ≠ .forward_some_keys →
      (∃ tk, s.trigger_keycode = some tk) ∧
        ∃ fw revert_to, s.fw = some fw ∧ s.revert_to = some revert_to) ∧
    (c.discard = .discard_modifier → s.state = .magic_key_held →
      ∃ te, s.trigger_event = some te ∧ te.type = .KeyPress ∧
        s.trigger_keycode = some te.keycode) ∧
    (∀ inp : Input, ∃ s1 queue calls, loop_body c s inp = some (s1, queue, calls)) ∧
    (∀ (inp : Input) s1 queue calls, loop_body c s inp = some (s1, queue, calls) →
      (s.state = .forward_some_keys → s1.state ≠ .forward_some_keys →
        ∃ ev, inp.ev = .xkey ev ∧ ev.type = .KeyPress ∧
          s1.trigger_keycode = some ev.keycode ∧ s1.fw = some inp.replies.focus ∧
          s1.revert_to = some inp.replies.revert_to ∧
          (c.discard = .discard_modifier → s1.trigger_event = some ev)) ∧
      (s.state ≠ .forward_some_keys → s1.state ≠ .forward_some_keys →
        s1.saved = s.saved)) := by
  have hv := reachable_valid c s captured h
  refine ⟨fun hn => ?_, hv.2, fun inp => loop_body_defined c s inp hv,
    fun inp s1 queue calls hb => loop_body_saved c s s1 inp queue calls hb⟩
  obtain ⟨htk, ⟨fw, hfw⟩, ⟨rv, hrv⟩⟩ := hv.1 hn
  exact ⟨htk, fw, rv, hfw, hrv⟩

/-- Witness for `saved_variables_assigned_when_read`: the state reached from
the initial state by the press of key-code 38 under `discard_modifier`. -/
theorem saved_variables_assigned_when_read_witness :
    ((Locals.mk .magic_key_held (some 38) (some 5) (some 1) (some [5, 7, 3])
        (some ⟨.KeyPress, 1, 0, 100, 0, 38⟩) 0).state ≠ .forward_some_keys →
      (∃ tk, (Locals.mk .magic_key_held (some 38) (some 5) (some 1) (some [5, 7, 3])
          (some ⟨.KeyPress, 1, 0, 100, 0, 38⟩) 0).trigger_keycode = some tk) ∧
        ∃ fw revert_to,
          (Locals.mk .magic_key_held (some 38) (some 5) (some 1) (some [5, 7, 3])
            (some ⟨.KeyPress, 1, 0, 100, 0, 38⟩) 0).fw = some fw ∧
          (Locals.mk .magic_key_held (some 38) (some 5) (some 1) (some [5, 7, 3])
            (some ⟨.KeyPress, 1, 0, 100, 0, 38⟩) 0).revert_to = some revert_to) ∧
    ((Config.mk 1 7 8 .discard_modifier).discard = .discard_modifier →
      (Locals.mk .magic_key_held (some 38) (some 5) (some 1) (some [5, 7, 3])
        (some ⟨.KeyPress, 1, 0, 100, 0, 38⟩) 0).state = .magic_key_held →
      ∃ te, (Locals.mk .magic_key_held (some 38) (some 5) (some 1) (some [5, 7, 3])
          (some ⟨.KeyPress, 1, 0, 100, 0, 38⟩) 0).trigger_event = some te ∧
        te.type = .KeyPress ∧
        (Locals.mk .magic_key_held (some 38) (some 5) (some 1) (some [5, 7, 3])
          (some ⟨.KeyPress, 1, 0, 100, 0, 38⟩) 0).trigger_keycode = some te.keycode) ∧
    (∀ inp : Input, ∃ s1 queue calls,
      loop_body ⟨1, 7, 8, .discard_modifier⟩
        (Locals.mk .magic_key_held (some 38) (some 5) (some 1) (some [5, 7, 3])
          (some ⟨.KeyPress, 1, 0, 100, 0, 38⟩) 0) inp = some (s1, queue, calls)) :=
  have h := saved_variables_assigned_when_read ⟨1, 7, 8, .discard_modifier⟩ _ _
    (Reachable.iteration
      ⟨.xkey ⟨.KeyPress, 1, 0, 100, 0, 38⟩, [], 0, ⟨some [3, 7, 5], 5, 1⟩⟩
      (Reachable.initial 0) rfl)
  ⟨h.1, h.2.1, h.2.2.1⟩

/-! ## Forwarding in `as_modifier` -/

end ForwardXKeys
